import Mathlib

/-!
RPL intrusion-detection statistics table (`src/ids/rpl_stats.c`).

A shallow embedding of the neighbour statistics table of `rpl_stats.c` and of the
operations working on it, followed by theorems about them.

Conventions of the embedding.

* The two file-level variables `rpl_stats` and `last_entry` form the explicit `State`.
* `uint32_t` values are natural numbers, every `++` is followed by `% 2 ^ 32`.
* `long` and `size_t` are taken to be 64 bits wide and `int` 32 bits wide; each implicit
  C conversion between them is an explicit function (`long_to_int`, `int_to_uint32`, ...).
* An array access outside `[0, TABLE_ENTRIES)` is undefined behaviour in C; the embedding
  returns `none` for it, so `some _` results certify that every access was in bounds.
* The mutex only brackets the bodies and has no effect on the sequential semantics, which
  is what the state functions model; the lock discipline is studied separately, on the
  traces of lock, unlock, read and write events of each operation.
* `snprintf` follows ISO C; the text `uiplib_ipaddr_snprint` prints for an address is a
  parameter of the reporter.
* The table that `src/client.c` keeps for itself is modelled in the namespace `Client`.
-/

namespace RplStats

/-! ## Data model (`rpl_stats.h`) -/

/-- A 16-byte IPv6 address, read as a 128-bit number. `uip_ipaddr_cmp` is byte-wise
equality, which is equality of these numbers. -/
abbrev uip_ipaddr_t : Type := Fin (2 ^ 128)

/-- The enumeration `rpl_messages`. -/
inductive rpl_messages_e
  | DIO
  | DAO
  | DIS
  deriving DecidableEq, Repr

/-- The struct `rpl_stats_entry`. The three counters are `uint32_t`. -/
structure rpl_stats_entry where
  addr : uip_ipaddr_t
  dio_count : Nat
  dao_count : Nat
  dis_count : Nat
  dio_attacker : Bool
  dis_attacker : Bool
  deriving DecidableEq, Repr

abbrev TABLE_ENTRIES : Nat := 64

abbrev DIS_THRESHOLD : Nat := 3

/-- The file-level variables `rpl_stats` (an array of `TABLE_ENTRIES` entries) and
`last_entry` (a `long`). -/
structure State where
  rpl_stats : List rpl_stats_entry
  last_entry : Int
  deriving DecidableEq, Repr

/-- An entry whose bytes are all zero. -/
def zero_entry : rpl_stats_entry :=
  { addr := 0, dio_count := 0, dao_count := 0, dis_count := 0,
    dio_attacker := false, dis_attacker := false }

/-- The state at program start: `rpl_stats[TABLE_ENTRIES] = {}` and `last_entry = 0`. -/
def init_state : State :=
  { rpl_stats := List.replicate TABLE_ENTRIES zero_entry, last_entry := 0 }

/-! ## Integer conversions -/

/-- Conversion of an `int` or `long` to `uint32_t`. -/
def int_to_uint32 (x : Int) : Nat := (x % 2 ^ 32).toNat

/-- Conversion of a `uint32_t` to `int` (two's complement). -/
def uint32_to_int (n : Nat) : Int :=
  if n % 2 ^ 32 < 2 ^ 31 then ((n % 2 ^ 32 : Nat) : Int) else ((n % 2 ^ 32 : Nat) : Int) - 2 ^ 32

/-- Conversion of a `long` to `int` (two's complement truncation). -/
def long_to_int (x : Int) : Int := (x + 2 ^ 31) % 2 ^ 32 - 2 ^ 31

/-- Conversion of an `int` or `long` to `size_t`. -/
def to_size_t (x : Int) : Nat := (x % 2 ^ 64).toNat

/-! ## Array access -/

/-- Read of `rpl_stats[idx]`: defined for `0 ≤ idx < TABLE_ENTRIES` only. -/
def read_entry (tbl : List rpl_stats_entry) (idx : Int) : Option rpl_stats_entry :=
  match idx with
  | Int.ofNat n => if n < TABLE_ENTRIES then tbl[n]? else none
  | Int.negSucc _ => none

/-- Read-modify-write of `rpl_stats[idx]`. -/
def update_entry (tbl : List rpl_stats_entry) (idx : Int)
    (f : rpl_stats_entry → rpl_stats_entry) : Option (List rpl_stats_entry) :=
  match read_entry tbl idx with
  | some e => some (tbl.set idx.toNat (f e))
  | none => none

/-- The counter selected by the `switch (type)` of the read functions. -/
def count_of (type : rpl_messages_e) (e : rpl_stats_entry) : Nat :=
  match type with
  | rpl_messages_e.DIO => e.dio_count
  | rpl_messages_e.DAO => e.dao_count
  | rpl_messages_e.DIS => e.dis_count

/-- The `switch (type)` of `rpl_increment_stat_count`: `++` on the selected counter. -/
def incr_count (type : rpl_messages_e) (e : rpl_stats_entry) : rpl_stats_entry :=
  match type with
  | rpl_messages_e.DIO => { e with dio_count := (e.dio_count + 1) % 2 ^ 32 }
  | rpl_messages_e.DAO => { e with dao_count := (e.dao_count + 1) % 2 ^ 32 }
  | rpl_messages_e.DIS => { e with dis_count := (e.dis_count + 1) % 2 ^ 32 }

/-! ## `search_ip` and `rpl_increment_stat_count` -/

/-- The loop of `search_ip`, at loop index `i` with `remaining` iterations to go. -/
def search_ip_loop (tbl : List rpl_stats_entry) (ip : uip_ipaddr_t) :
    (remaining : Nat) → (i : Nat) → Option Int
  | 0, _ => some (-1)
  | remaining + 1, i =>
    match read_entry tbl i with
    | none => none
    | some e => if e.addr = ip then some i else search_ip_loop tbl ip remaining (i + 1)

/-- `search_ip`: `for (int i = 0; i < last_entry; i++)`, the index of the first entry with
the address `ip`, or `-1`. -/
def search_ip (s : State) (ip : uip_ipaddr_t) : Option Int :=
  search_ip_loop s.rpl_stats ip s.last_entry.toNat 0

/-- `rpl_increment_stat_count`. -/
def rpl_increment_stat_count (s : State) (neighbor : uip_ipaddr_t) (type : rpl_messages_e) :
    Option State :=
  match search_ip s neighbor with
  | none => none
  | some pos =>
    if pos < 0 then
      if s.last_entry ≥ TABLE_ENTRIES then some s
      else
        match update_entry s.rpl_stats s.last_entry
            (fun e => incr_count type { e with addr := neighbor }) with
        | none => none
        | some tbl => some { rpl_stats := tbl, last_entry := s.last_entry + 1 }
    else
      match update_entry s.rpl_stats pos (incr_count type) with
      | none => none
      | some tbl => some { s with rpl_stats := tbl }

/-! ## Query functions -/

/-- `rpl_read_stat_count_ip`. The result passes through the local `int ret`. -/
def rpl_read_stat_count_ip (s : State) (neighbor : uip_ipaddr_t) (type : rpl_messages_e) :
    Option Nat :=
  match search_ip s neighbor with
  | none => none
  | some p =>
    let pos := long_to_int p
    if pos < 0 then some (int_to_uint32 0)
    else
      match read_entry s.rpl_stats pos with
      | none => none
      | some e => some (int_to_uint32 (uint32_to_int (count_of type e)))

/-- `rpl_read_stat_count_index`. `neighbor_idx` is a `size_t`, so `neighbor_idx < 0` is
never true and `neighbor_idx >= last_entry` compares after converting `last_entry` to
`size_t`. -/
def rpl_read_stat_count_index (s : State) (neighbor_idx : Nat) (type : rpl_messages_e) :
    Option Nat :=
  if neighbor_idx ≥ to_size_t s.last_entry then some (int_to_uint32 0)
  else
    match read_entry s.rpl_stats neighbor_idx with
    | none => none
    | some e => some (int_to_uint32 (uint32_to_int (count_of type e)))

/-- `rpl_read_neighbor_num`: `last_entry` converted to `uint32_t`. -/
def rpl_read_neighbor_num (s : State) : Nat := int_to_uint32 s.last_entry

/-- `rpl_reset_stats`: `memset` of the whole array, then `last_entry = 0`. -/
def rpl_reset_stats (_s : State) : State :=
  { rpl_stats := List.replicate TABLE_ENTRIES zero_entry, last_entry := 0 }

/-! ## Detectors -/

/-- The binary exponent of the unit in the last place of `(float) n` for a `uint32_t`
value `n ≥ 2 ^ 24` (a `float` has a 24-bit significand). -/
def float_ulp_exp (n : Nat) : Nat :=
  if n < 2 ^ 25 then 1 else if n < 2 ^ 26 then 2 else if n < 2 ^ 27 then 3
  else if n < 2 ^ 28 then 4 else if n < 2 ^ 29 then 5 else if n < 2 ^ 30 then 6
  else if n < 2 ^ 31 then 7 else 8

/-- The exact value of `(float) n` for a `uint32_t` value `n`: values below `2 ^ 24` are
representable, larger ones are rounded to the nearest multiple of the unit in the last
place, ties to the even significand. The value is always a natural number. -/
def uint32_to_float (n : Nat) : Nat :=
  if n < 2 ^ 24 then n
  else
    let e := float_ulp_exp n
    let q := n / 2 ^ e
    let r := n % 2 ^ e
    if 2 * r < 2 ^ e ∨ (2 * r = 2 ^ e ∧ q % 2 = 0) then q * 2 ^ e else (q + 1) * 2 ^ e

/-- The loop of `rpl_check_dis_attackers`. `DIS_THRESHOLD` is converted to the `float`
`3.0`, which is exact, and the comparison of two finite floats is the comparison of
their values. -/
def check_dis_loop : (remaining : Nat) → (i : Nat) → State → Option State
  | 0, _, s => some s
  | remaining + 1, i, s =>
    match rpl_read_stat_count_index s (to_size_t i) rpl_messages_e.DIS with
    | none => none
    | some c =>
      if uint32_to_float c > DIS_THRESHOLD then
        match update_entry s.rpl_stats i (fun e => { e with dis_attacker := true }) with
        | none => none
        | some tbl => check_dis_loop remaining (i + 1) { s with rpl_stats := tbl }
      else check_dis_loop remaining (i + 1) s

/-- `rpl_check_dis_attackers`: `int neighbors = rpl_read_neighbor_num()` and the loop
`for (int i = 0; i < neighbors; i++)`. -/
def rpl_check_dis_attackers (s : State) : Option State :=
  check_dis_loop (uint32_to_int (rpl_read_neighbor_num s)).toNat 0 s

/-- The single-precision operations used by `rpl_check_dio_attackers`, kept abstract:
the results below hold for every interpretation of them. `quartic p4 p3 p2 n` is the
value of `-5e-05 * p4 + 0.0037 * p3 - 0.0899 * p2 + 0.9281 * n - 0.7903`, evaluated in
double precision and converted to `float`. -/
structure FloatModel (F : Type) where
  zero : F
  of_uint32 : Nat → F
  of_int : Int → F
  add : F → F → F
  sub : F → F → F
  mul : F → F → F
  div : F → F → F
  powf : F → F → F
  sqrtf : F → F
  quartic : F → F → F → Int → F
  gt : F → F → Bool

/-- First loop of `rpl_check_dio_attackers`: `avg += (float)rpl_read_stat_count_index(i, DIO)`. -/
def dio_sum_loop {F : Type} (fm : FloatModel F) (s : State) :
    (remaining : Nat) → (i : Nat) → (avg : F) → Option F
  | 0, _, avg => some avg
  | remaining + 1, i, avg =>
    match rpl_read_stat_count_index s (to_size_t i) rpl_messages_e.DIO with
    | none => none
    | some c => dio_sum_loop fm s remaining (i + 1) (fm.add avg (fm.of_uint32 c))

/-- Second loop of `rpl_check_dio_attackers`:
`temp += powf(2, avg - (float)rpl_read_stat_count_index(i, DIO))`. -/
def dio_pow_loop {F : Type} (fm : FloatModel F) (s : State) (avg : F) :
    (remaining : Nat) → (i : Nat) → (temp : F) → Option F
  | 0, _, temp => some temp
  | remaining + 1, i, temp =>
    match rpl_read_stat_count_index s (to_size_t i) rpl_messages_e.DIO with
    | none => none
    | some c =>
      dio_pow_loop fm s avg remaining (i + 1)
        (fm.add temp (fm.powf (fm.of_int 2) (fm.sub avg (fm.of_uint32 c))))

/-- Third loop of `rpl_check_dio_attackers`: the comparison with `avg + (k * stddev)`
and the write of `dio_attacker`. -/
def dio_flag_loop {F : Type} (fm : FloatModel F) (avg k stddev : F) :
    (remaining : Nat) → (i : Nat) → State → Option State
  | 0, _, s => some s
  | remaining + 1, i, s =>
    match rpl_read_stat_count_index s (to_size_t i) rpl_messages_e.DIO with
    | none => none
    | some c =>
      if fm.gt (fm.of_uint32 c) (fm.add avg (fm.mul k stddev)) then
        match update_entry s.rpl_stats i (fun e => { e with dio_attacker := true }) with
        | none => none
        | some tbl => dio_flag_loop fm avg k stddev remaining (i + 1) { s with rpl_stats := tbl }
      else dio_flag_loop fm avg k stddev remaining (i + 1) s

/-- `rpl_check_dio_attackers`. -/
def rpl_check_dio_attackers {F : Type} (fm : FloatModel F) (s : State) : Option State :=
  let neighbors : Int := uint32_to_int (rpl_read_neighbor_num s)
  match dio_sum_loop fm s neighbors.toNat 0 fm.zero with
  | none => none
  | some sum =>
    let avg := fm.div sum (fm.of_int neighbors)
    match dio_pow_loop fm s avg neighbors.toNat 0 fm.zero with
    | none => none
    | some temp =>
      let stddev := fm.sqrtf (fm.div temp (fm.of_int neighbors))
      let k := fm.quartic (fm.powf (fm.of_int neighbors) (fm.of_int 4))
        (fm.powf (fm.of_int neighbors) (fm.of_int 3))
        (fm.powf (fm.of_int neighbors) (fm.of_int 2)) neighbors
      dio_flag_loop fm avg k stddev neighbors.toNat 0 s

/-! ## Runs and reachable states -/

/-- A sequence of calls of `rpl_increment_stat_count`, in order. -/
def record_all (s : State) : List (uip_ipaddr_t × rpl_messages_e) → Option State
  | [] => some s
  | (a, k) :: l =>
    match rpl_increment_stat_count s a k with
    | none => none
    | some s1 => record_all s1 l

/-- The states reachable from the start state by the state-changing operations of the
module. The query functions return a value and leave the state as it is, so they add no
state. The DIO detector may run under any interpretation of the float operations. -/
inductive Reachable : State → Prop
  | init : Reachable init_state
  | record {s s1 : State} (a : uip_ipaddr_t) (k : rpl_messages_e) :
      Reachable s → rpl_increment_stat_count s a k = some s1 → Reachable s1
  | reset {s : State} : Reachable s → Reachable (rpl_reset_stats s)
  | check_dio {F : Type} (fm : FloatModel F) {s s1 : State} :
      Reachable s → rpl_check_dio_attackers fm s = some s1 → Reachable s1
  | check_dis {s s1 : State} :
      Reachable s → rpl_check_dis_attackers s = some s1 → Reachable s1

/-- The addresses of the populated records, in index order. -/
def addrs (s : State) : List uip_ipaddr_t :=
  (s.rpl_stats.take s.last_entry.toNat).map (fun e => e.addr)

/-- All three counters of an entry are `uint32_t` values. -/
def entry_u32 (e : rpl_stats_entry) : Prop :=
  e.dio_count < 2 ^ 32 ∧ e.dao_count < 2 ^ 32 ∧ e.dis_count < 2 ^ 32

/-- The invariant of the table: the array has `TABLE_ENTRIES` slots, `last_entry` is
within `[0, TABLE_ENTRIES]`, the populated addresses are pairwise distinct, every slot at
or after `last_entry` is all-zero and every counter is a `uint32_t` value. -/
structure Inv (s : State) : Prop where
  len : s.rpl_stats.length = TABLE_ENTRIES
  lo : 0 ≤ s.last_entry
  hi : s.last_entry ≤ TABLE_ENTRIES
  nodup : (addrs s).Nodup
  zero : ∀ i : Nat, s.last_entry.toNat ≤ i → i < TABLE_ENTRIES → s.rpl_stats[i]? = some zero_entry
  u32 : ∀ e ∈ s.rpl_stats, entry_u32 e

/-- The state after recording into the found record at index `i` holding `e`. -/
def found_state (s : State) (i : Nat) (e : rpl_stats_entry) (k : rpl_messages_e) : State :=
  { s with rpl_stats := s.rpl_stats.set i (incr_count k e) }

/-- The state after appending a record for the new address `a`. -/
def appended_state (s : State) (a : uip_ipaddr_t) (k : rpl_messages_e) : State :=
  { rpl_stats := s.rpl_stats.set s.last_entry.toNat (incr_count k { zero_entry with addr := a }),
    last_entry := s.last_entry + 1 }

/-- The common shape of the flag-writing loops of the two detectors: for each index read
the counter of kind `type` through `rpl_read_stat_count_index`, and where `test` holds of
it overwrite the entry by `f`. Used to reason about both loops at once. -/
def flag_loop (type : rpl_messages_e) (test : Nat → Bool)
    (f : rpl_stats_entry → rpl_stats_entry) : (remaining : Nat) → (i : Nat) → State → Option State
  | 0, _, s => some s
  | remaining + 1, i, s =>
    match rpl_read_stat_count_index s (to_size_t i) type with
    | none => none
    | some c =>
      if test c then
        match update_entry s.rpl_stats i f with
        | none => none
        | some tbl => flag_loop type test f remaining (i + 1) { s with rpl_stats := tbl }
      else flag_loop type test f remaining (i + 1) s

/-- An entry transformer that leaves the address and the three counters alone. -/
def keeps_counts (f : rpl_stats_entry → rpl_stats_entry) : Prop :=
  ∀ e, (f e).addr = e.addr ∧ (f e).dio_count = e.dio_count ∧ (f e).dao_count = e.dao_count ∧
    (f e).dis_count = e.dis_count

/-- The right-hand side `avg + (k * stddev)` of the comparison in
`rpl_check_dio_attackers`, from the number of neighbours, the sum of the first loop and
the sum of the second loop. -/
def dio_threshold {F : Type} (fm : FloatModel F) (neighbors : Int) (sum temp : F) : F :=
  fm.add (fm.div sum (fm.of_int neighbors))
    (fm.mul
      (fm.quartic (fm.powf (fm.of_int neighbors) (fm.of_int 4))
        (fm.powf (fm.of_int neighbors) (fm.of_int 3))
        (fm.powf (fm.of_int neighbors) (fm.of_int 2)) neighbors)
      (fm.sqrtf (fm.div temp (fm.of_int neighbors))))

/-- The index of the slot of `rpl_stats` that `rpl_increment_stat_count` writes, following
its control flow: `pos` when the address is found, `last_entry` when it is not found and
the capacity check passes, and no write when the call is dropped. -/
def write_index (s : State) (neighbor : uip_ipaddr_t) : Option Int :=
  match search_ip s neighbor with
  | none => none
  | some pos =>
    if pos < 0 then
      if s.last_entry ≥ TABLE_ENTRIES then none else some s.last_entry
    else some pos

/-- A table with one record, for the address `1`, whose DIO counter holds `c`. -/
def single_state (c : Nat) : State :=
  { rpl_stats :=
      { addr := 1, dio_count := c, dao_count := 0, dis_count := 0,
        dio_attacker := false, dis_attacker := false } :: List.replicate 63 zero_entry,
    last_entry := 1 }

/-- A table with three records, for the addresses `10`, `11` and `12`, with the DIS
counts 4, 1 and 2 and no flag set. -/
def dis_example_state : State :=
  { rpl_stats :=
      [{ addr := 10, dio_count := 0, dao_count := 0, dis_count := 4,
         dio_attacker := false, dis_attacker := false },
       { addr := 11, dio_count := 0, dao_count := 0, dis_count := 1,
         dio_attacker := false, dis_attacker := false },
       { addr := 12, dio_count := 0, dao_count := 0, dis_count := 2,
         dio_attacker := false, dis_attacker := false }] ++ List.replicate 61 zero_entry,
    last_entry := 3 }

/-- The calls that build `dis_example_state` from the start state. -/
def dis_example_calls : List (uip_ipaddr_t × rpl_messages_e) :=
  [(10, rpl_messages_e.DIS), (11, rpl_messages_e.DIS), (10, rpl_messages_e.DIS), (12, rpl_messages_e.DIS), (10, rpl_messages_e.DIS), (12, rpl_messages_e.DIS), (10, rpl_messages_e.DIS)]

/-- A full table: the addresses `1` to `64`, each with one DIO message. -/
def full_state : State :=
  { rpl_stats := (List.range 64).map (fun i =>
      { addr := Fin.ofNat (i + 1), dio_count := 1, dao_count := 0, dis_count := 0,
        dio_attacker := false, dis_attacker := false }),
    last_entry := 64 }

/-! ## Reporter (`rpl_stats_snprint`) -/

/-- Subtraction of two `size_t` values, modulo `2 ^ 64`. -/
def size_t_sub (a b : Nat) : Nat := (a % 2 ^ 64 + 2 ^ 64 - b % 2 ^ 64) % 2 ^ 64

/-- Addition of two `size_t` values, modulo `2 ^ 64`. -/
def size_t_add (a b : Nat) : Nat := (a + b) % 2 ^ 64

/-- Conversion of a `bool` argument of `printf` to `int`. -/
def bool_to_int (b : Bool) : Int := if b then 1 else 0

/-- Right-justification in a field of width `w`, as for `%5d` and `%5s`: a longer text
is not cut. -/
def pad_left (w : Nat) (t : List Char) : List Char :=
  List.replicate (w - t.length) (Char.ofNat 32) ++ t

/-- Left-justification in a field of width `w`, as for `%-30s`. -/
def pad_right (w : Nat) (t : List Char) : List Char :=
  t ++ List.replicate (w - t.length) (Char.ofNat 32)

/-- The decimal digits of `n`, most significant first, in front of `acc`; `fuel` bounds
the number of digits. -/
def nat_digits : (fuel : Nat) → Nat → List Char → List Char
  | 0, _, acc => acc
  | fuel + 1, n, acc =>
    if n / 10 = 0 then Char.ofNat (48 + n % 10) :: acc
    else nat_digits fuel (n / 10) (Char.ofNat (48 + n % 10) :: acc)

/-- The text `%d` prints for an `int` (at most ten digits and a sign). -/
def dec_text (x : Int) : List Char :=
  match x with
  | Int.ofNat n => nat_digits 10 n []
  | Int.negSucc n => Char.ofNat 45 :: nat_digits 10 (n + 1) []

/-- The header line: the format `"\n%-30s%5s%5s%5s%5s%5s\n"` applied to the six column
titles. -/
def header_text : List Char :=
  [Char.ofNat 10] ++ pad_right 30 (String.toList "Neigbor") ++ pad_left 5 (String.toList "DIO") ++
    pad_left 5 (String.toList "DAO") ++ pad_left 5 (String.toList "DIS") ++
    pad_left 5 (String.toList "DIOA") ++ pad_left 5 (String.toList "DISA") ++ [Char.ofNat 10]

/-- The line of one record: the format `"%-30s%5d%5d%5d%5d%5d\n"`. `ip_text` is the text
`uiplib_ipaddr_snprint` produces for an address, of which the 46-byte `ipbuf` keeps at
most 45 characters. The `uint32_t` counters are printed with `%d`, that is as `int`. -/
def row_text (ip_text : uip_ipaddr_t → List Char) (e : rpl_stats_entry) : List Char :=
  pad_right 30 ((ip_text e.addr).take 45) ++ pad_left 5 (dec_text (uint32_to_int e.dio_count)) ++
    pad_left 5 (dec_text (uint32_to_int e.dao_count)) ++
    pad_left 5 (dec_text (uint32_to_int e.dis_count)) ++
    pad_left 5 (dec_text (bool_to_int e.dio_attacker)) ++
    pad_left 5 (dec_text (bool_to_int e.dis_attacker)) ++ [Char.ofNat 10]

/-- The bytes `snprintf(buf + off, size, ...)` stores when the complete formatted text is
`text`, as offsets from `buf` (ISO C): nothing for `size = 0`, else the first `size - 1`
characters of the text followed by a terminating zero byte. -/
def snprintf_stores (off size : Nat) (text : List Char) : List (Nat × Char) :=
  if size = 0 then []
  else (text.take (size - 1)).enumFrom off ++ [(off + (text.take (size - 1)).length, Char.ofNat 0)]

/-- What a call of `rpl_stats_snprint` does: the value it returns, the `(offset, size)`
pair handed to each `snprintf` call and the `(offset, byte)` stores into `buf`. -/
structure snprint_result where
  ret : Nat
  calls : List (Nat × Nat)
  stores : List (Nat × Char)
  deriving DecidableEq, Repr

/-- One `snprintf(buf + written, size, ...)` call with the formatted text `text`, and
`written += ` its return value, the length of the complete text. -/
def snprint_step (r : snprint_result) (size : Nat) (text : List Char) : snprint_result :=
  { ret := size_t_add r.ret (to_size_t (text.length : Int)),
    calls := r.calls ++ [(r.ret, size)],
    stores := r.stores ++ snprintf_stores r.ret size text }

/-- The loop of `rpl_stats_snprint`: `for (int i = 0; i < last_entry; i++)`, each round
calling `snprintf(buf + written, len - written, ...)`. -/
def snprint_loop (ip_text : uip_ipaddr_t → List Char) (tbl : List rpl_stats_entry) (len : Nat) :
    (remaining : Nat) → (i : Nat) → snprint_result → Option snprint_result
  | 0, _, r => some r
  | remaining + 1, i, r =>
    match read_entry tbl i with
    | none => none
    | some e =>
      snprint_loop ip_text tbl len remaining (i + 1)
        (snprint_step r (size_t_sub len r.ret) (row_text ip_text e))

/-- `rpl_stats_snprint(buf, len)`: the header with `snprintf(buf, len, ...)`, then the
loop over the populated records. -/
def rpl_stats_snprint (ip_text : uip_ipaddr_t → List Char) (s : State) (len : Nat) :
    Option snprint_result :=
  snprint_loop ip_text s.rpl_stats len s.last_entry.toNat 0
    (snprint_step { ret := 0, calls := [], stores := [] } len header_text)

/-- The complete render: the header line and one line per populated record. -/
def full_render (ip_text : uip_ipaddr_t → List Char) (s : State) : List Char :=
  header_text ++ ((s.rpl_stats.take s.last_entry.toNat).map (row_text ip_text)).flatten

/-- An address text used in examples: the decimal digits of the address read as a
number. -/
def example_ip_text (a : uip_ipaddr_t) : List Char := nat_digits 39 a.val []

/-! ## Lock discipline: the operations as traces of events -/

/-- The events of a call that matter for mutual exclusion: taking and releasing
`stats_lock`, and the reads and writes of the two shared variables. -/
inductive Event
  | lock
  | unlock
  | read_last_entry
  | write_last_entry
  | read_stats (idx : Int)
  | write_stats (idx : Int)
  deriving DecidableEq, Repr

/-- Events of the loop of `search_ip`: each loop test reads `last_entry`, each round reads
`rpl_stats[i].addr`. -/
def trace_search_ip_loop (tbl : List rpl_stats_entry) (ip : uip_ipaddr_t) :
    (remaining : Nat) → (i : Nat) → List Event
  | 0, _ => [Event.read_last_entry]
  | remaining + 1, i =>
    Event.read_last_entry :: Event.read_stats i ::
      (match read_entry tbl i with
      | none => []
      | some e => if e.addr = ip then [] else trace_search_ip_loop tbl ip remaining (i + 1))

/-- Events of `search_ip`, which takes no lock itself. -/
def trace_search_ip (s : State) (ip : uip_ipaddr_t) : List Event :=
  trace_search_ip_loop s.rpl_stats ip s.last_entry.toNat 0

/-- Events of `rpl_increment_stat_count`. -/
def trace_increment_stat_count (s : State) (neighbor : uip_ipaddr_t) : List Event :=
  [Event.lock] ++ trace_search_ip s neighbor ++
    (match search_ip s neighbor with
    | none => []
    | some pos =>
      if pos < 0 then
        Event.read_last_entry ::
          (if s.last_entry ≥ TABLE_ENTRIES then []
          else [Event.read_last_entry, Event.write_stats s.last_entry,
            Event.read_last_entry, Event.write_last_entry,
            Event.read_stats s.last_entry, Event.write_stats s.last_entry])
      else [Event.read_stats pos, Event.write_stats pos]) ++
    [Event.unlock]

/-- Events of `rpl_read_stat_count_ip`. -/
def trace_read_stat_count_ip (s : State) (neighbor : uip_ipaddr_t) : List Event :=
  [Event.lock] ++ trace_search_ip s neighbor ++
    (match search_ip s neighbor with
    | none => []
    | some p => if long_to_int p < 0 then [] else [Event.read_stats (long_to_int p)]) ++
    [Event.unlock]

/-- Events of `rpl_read_stat_count_index`. -/
def trace_read_stat_count_index (s : State) (neighbor_idx : Nat) : List Event :=
  [Event.lock, Event.read_last_entry] ++
    (if neighbor_idx ≥ to_size_t s.last_entry then [] else [Event.read_stats neighbor_idx]) ++
    [Event.unlock]

/-- Events of `rpl_read_neighbor_num`. -/
def trace_read_neighbor_num : List Event :=
  [Event.lock, Event.read_last_entry, Event.unlock]

/-- Events of `rpl_reset_stats`: the `memset` writes every slot. -/
def trace_reset_stats : List Event :=
  [Event.lock] ++ (List.range TABLE_ENTRIES).map (fun i => Event.write_stats i) ++
    [Event.write_last_entry, Event.unlock]

/-- Events of the loop of `rpl_stats_snprint`. -/
def trace_snprint_loop (tbl : List rpl_stats_entry) : (remaining : Nat) → (i : Nat) → List Event
  | 0, _ => [Event.read_last_entry]
  | remaining + 1, i =>
    Event.read_last_entry :: Event.read_stats i ::
      (match read_entry tbl i with
      | none => []
      | some _ => trace_snprint_loop tbl remaining (i + 1))

/-- Events of `rpl_stats_snprint`: the header is printed before the lock is taken and
touches no shared variable. -/
def trace_stats_snprint (s : State) : List Event :=
  [Event.lock] ++ trace_snprint_loop s.rpl_stats s.last_entry.toNat 0 ++ [Event.unlock]

/-- Events of the loop of `rpl_check_dis_attackers`: the call of
`rpl_read_stat_count_index`, then, where the comparison holds, the store to
`rpl_stats[i].dis_attacker`. -/
def trace_check_dis_loop : (remaining : Nat) → (i : Nat) → State → List Event
  | 0, _, _ => []
  | remaining + 1, i, s =>
    trace_read_stat_count_index s (to_size_t i) ++
      (match rpl_read_stat_count_index s (to_size_t i) rpl_messages_e.DIS with
      | none => []
      | some c =>
        if uint32_to_float c > DIS_THRESHOLD then
          Event.write_stats i ::
            (match update_entry s.rpl_stats i (fun e => { e with dis_attacker := true }) with
            | none => []
            | some tbl => trace_check_dis_loop remaining (i + 1) { s with rpl_stats := tbl })
        else trace_check_dis_loop remaining (i + 1) s)

/-- Events of `rpl_check_dis_attackers`. -/
def trace_check_dis_attackers (s : State) : List Event :=
  trace_read_neighbor_num ++
    trace_check_dis_loop (uint32_to_int (rpl_read_neighbor_num s)).toNat 0 s

/-- Events of the first and of the second loop of `rpl_check_dio_attackers`: one call of
`rpl_read_stat_count_index` per round. -/
def trace_dio_read_loop (s : State) : (remaining : Nat) → (i : Nat) → List Event
  | 0, _ => []
  | remaining + 1, i =>
    trace_read_stat_count_index s (to_size_t i) ++ trace_dio_read_loop s remaining (i + 1)

/-- Events of the third loop of `rpl_check_dio_attackers`: the call of
`rpl_read_stat_count_index`, then, where the comparison holds, the store to
`rpl_stats[i].dio_attacker`. -/
def trace_dio_flag_loop {F : Type} (fm : FloatModel F) (limit : F) :
    (remaining : Nat) → (i : Nat) → State → List Event
  | 0, _, _ => []
  | remaining + 1, i, s =>
    trace_read_stat_count_index s (to_size_t i) ++
      (match rpl_read_stat_count_index s (to_size_t i) rpl_messages_e.DIO with
      | none => []
      | some c =>
        if fm.gt (fm.of_uint32 c) limit then
          Event.write_stats i ::
            (match update_entry s.rpl_stats i (fun e => { e with dio_attacker := true }) with
            | none => []
            | some tbl => trace_dio_flag_loop fm limit remaining (i + 1) { s with rpl_stats := tbl })
        else trace_dio_flag_loop fm limit remaining (i + 1) s)

/-- Events of `rpl_check_dio_attackers`. -/
def trace_check_dio_attackers {F : Type} (fm : FloatModel F) (s : State) : List Event :=
  let neighbors : Int := uint32_to_int (rpl_read_neighbor_num s)
  trace_read_neighbor_num ++ trace_dio_read_loop s neighbors.toNat 0 ++
    trace_dio_read_loop s neighbors.toNat 0 ++
    (match dio_sum_loop fm s neighbors.toNat 0 fm.zero with
    | none => []
    | some sum =>
      match dio_pow_loop fm s (fm.div sum (fm.of_int neighbors)) neighbors.toNat 0 fm.zero with
      | none => []
      | some temp =>
        trace_dio_flag_loop fm (dio_threshold fm neighbors sum temp) neighbors.toNat 0 s)

/-- Whether a trace keeps the lock discipline, starting with the lock held or not: the
shared variables are read and written only while the lock is held, the lock is taken
only when free and released only when held, and it is free at the end. -/
def guarded_from : Bool → List Event → Bool
  | held, [] => !held
  | held, Event.lock :: t => !held && guarded_from true t
  | held, Event.unlock :: t => held && guarded_from false t
  | held, Event.read_last_entry :: t => held && guarded_from held t
  | held, Event.write_last_entry :: t => held && guarded_from held t
  | held, Event.read_stats _ :: t => held && guarded_from held t
  | held, Event.write_stats _ :: t => held && guarded_from held t

/-- A trace of a whole call keeps the lock discipline. -/
def guarded (t : List Event) : Bool := guarded_from false t

/-- The events other than taking and releasing the lock. -/
def is_access : Event → Bool
  | Event.lock => false
  | Event.unlock => false
  | _ => true

/-! ## The client application's own table (`src/client.c`) -/

namespace Client

/-- The struct `rpl_stats_entry` of `client.c`: no attacker flags. -/
structure rpl_stats_entry where
  addr : uip_ipaddr_t
  dio_count : Nat
  dao_count : Nat
  dis_count : Nat
  deriving DecidableEq, Repr

abbrev TABLE_ENTRIES : Nat := 16

/-- The file-level variables `rpl_stats` (an array of `TABLE_ENTRIES` entries) and
`last_entry` (a `long`) of `client.c`. -/
structure State where
  rpl_stats : List rpl_stats_entry
  last_entry : Int
  deriving DecidableEq, Repr

/-- An entry whose bytes are all zero. -/
def zero_entry : rpl_stats_entry :=
  { addr := 0, dio_count := 0, dao_count := 0, dis_count := 0 }

/-- The state at program start: `rpl_stats[TABLE_ENTRIES] = {}` and `last_entry = 0`. -/
def init_state : State :=
  { rpl_stats := List.replicate TABLE_ENTRIES zero_entry, last_entry := 0 }

/-- Read of `rpl_stats[idx]`: defined for `0 ≤ idx < TABLE_ENTRIES` only. -/
def read_entry (tbl : List rpl_stats_entry) (idx : Int) : Option rpl_stats_entry :=
  match idx with
  | Int.ofNat n => if n < TABLE_ENTRIES then tbl[n]? else none
  | Int.negSucc _ => none

/-- Read-modify-write of `rpl_stats[idx]`. -/
def update_entry (tbl : List rpl_stats_entry) (idx : Int)
    (f : rpl_stats_entry → rpl_stats_entry) : Option (List rpl_stats_entry) :=
  match read_entry tbl idx with
  | some e => some (tbl.set idx.toNat (f e))
  | none => none

/-- The `++` of the counter that the callback for messages of kind `type` increments. -/
def incr_count (type : rpl_messages_e) (e : rpl_stats_entry) : rpl_stats_entry :=
  match type with
  | rpl_messages_e.DIO => { e with dio_count := (e.dio_count + 1) % 2 ^ 32 }
  | rpl_messages_e.DAO => { e with dao_count := (e.dao_count + 1) % 2 ^ 32 }
  | rpl_messages_e.DIS => { e with dis_count := (e.dis_count + 1) % 2 ^ 32 }

/-- The loop of `search_ip`, at loop index `i` with `remaining` iterations to go. -/
def search_ip_loop (tbl : List rpl_stats_entry) (ip : uip_ipaddr_t) :
    (remaining : Nat) → (i : Nat) → Option Int
  | 0, _ => some (-1)
  | remaining + 1, i =>
    match read_entry tbl i with
    | none => none
    | some e => if e.addr = ip then some i else search_ip_loop tbl ip remaining (i + 1)

/-- `search_ip` of `client.c`. -/
def search_ip (s : State) (ip : uip_ipaddr_t) : Option Int :=
  search_ip_loop s.rpl_stats ip s.last_entry.toNat 0

/-- The loop of `print_rpl_stats`: it reads `rpl_stats[line]` for every `line` below
`last_entry` and changes nothing. -/
def print_rpl_stats_loop (tbl : List rpl_stats_entry) : (remaining : Nat) → (line : Nat) → Option Unit
  | 0, _ => some ()
  | remaining + 1, line =>
    match read_entry tbl line with
    | none => none
    | some _ => print_rpl_stats_loop tbl remaining (line + 1)

/-- `print_rpl_stats`. -/
def print_rpl_stats (s : State) : Option Unit :=
  print_rpl_stats_loop s.rpl_stats s.last_entry.toNat 0

/-- The common body of `dio_callback`, `dao_callback` and `dis_callback`, which differ in
the counter they increment only. When the address is not found the record is appended at
`last_entry` with no check against `TABLE_ENTRIES`. -/
def count_callback (type : rpl_messages_e) (s : State) (sender : uip_ipaddr_t) : Option State :=
  match search_ip s sender with
  | none => none
  | some pos =>
    let next : Option State :=
      if pos < 0 then
        match update_entry s.rpl_stats s.last_entry
            (fun e => incr_count type { e with addr := sender }) with
        | none => none
        | some tbl => some { rpl_stats := tbl, last_entry := s.last_entry + 1 }
      else
        match update_entry s.rpl_stats pos (incr_count type) with
        | none => none
        | some tbl => some { s with rpl_stats := tbl }
    match next with
    | none => none
    | some s1 =>
      match print_rpl_stats s1 with
      | none => none
      | some _ => some s1

/-- `dio_callback`. -/
def dio_callback (s : State) (sender : uip_ipaddr_t) : Option State :=
  count_callback rpl_messages_e.DIO s sender

/-- `dao_callback`. -/
def dao_callback (s : State) (sender : uip_ipaddr_t) : Option State :=
  count_callback rpl_messages_e.DAO s sender

/-- `dis_callback`. -/
def dis_callback (s : State) (sender : uip_ipaddr_t) : Option State :=
  count_callback rpl_messages_e.DIS s sender

/-- The index of the slot of `rpl_stats` a callback writes, following its control flow:
`pos` when the address is found, else `last_entry`. -/
def write_index (s : State) (sender : uip_ipaddr_t) : Option Int :=
  match search_ip s sender with
  | none => none
  | some pos => if pos < 0 then some s.last_entry else some pos

/-- A sequence of callback invocations, in order. -/
def run (s : State) : List (uip_ipaddr_t × rpl_messages_e) → Option State
  | [] => some s
  | (a, rpl_messages_e.DIO) :: l =>
    match dio_callback s a with
    | none => none
    | some s1 => run s1 l
  | (a, rpl_messages_e.DAO) :: l =>
    match dao_callback s a with
    | none => none
    | some s1 => run s1 l
  | (a, rpl_messages_e.DIS) :: l =>
    match dis_callback s a with
    | none => none
    | some s1 => run s1 l

/-- One DIO message from each of the addresses `1` to `n`. -/
def distinct_senders (n : Nat) : List (uip_ipaddr_t × rpl_messages_e) :=
  (List.range n).map (fun i => (Fin.ofNat (i + 1), rpl_messages_e.DIO))

/-- The table after one DIO message from each of the addresses `1` to `16`. -/
def full_state : State :=
  { rpl_stats := (List.range 16).map (fun i =>
      { addr := Fin.ofNat (i + 1), dio_count := 1, dao_count := 0, dis_count := 0 }),
    last_entry := 16 }

end Client

/-! # Lemmas -/

theorem read_entry_nat (tbl : List rpl_stats_entry) (i : Nat) (h : i < TABLE_ENTRIES) :
    read_entry tbl (i : Int) = tbl[i]? := by
  show (if i < TABLE_ENTRIES then tbl[i]? else none) = tbl[i]?
  rw [if_pos h]

theorem read_entry_of_bounds (tbl : List rpl_stats_entry) (idx : Int) (h0 : 0 ≤ idx)
    (h1 : idx < TABLE_ENTRIES) : read_entry tbl idx = tbl[idx.toNat]? := by
  obtain ⟨n, rfl⟩ := Int.eq_ofNat_of_zero_le h0
  rw [read_entry_nat tbl n (by omega)]
  simp

/-- The result of the search loop in terms of the list of scanned addresses. -/
theorem search_ip_loop_eq (tbl : List rpl_stats_entry) (ip : uip_ipaddr_t) :
    ∀ (n i : Nat), i + n ≤ tbl.length → i + n ≤ TABLE_ENTRIES →
      search_ip_loop tbl ip n i =
        some (if ip ∈ ((tbl.drop i).take n).map (fun e => e.addr) then
          ((i + List.indexOf ip (((tbl.drop i).take n).map (fun e => e.addr)) : Nat) : Int)
        else -1) := by
  intro n
  induction n with
  | zero => intro i _ _; simp [search_ip_loop]
  | succ n ih =>
    intro i h1 h2
    have hi : i < tbl.length := by omega
    have hd : tbl.drop i = tbl[i] :: tbl.drop (i + 1) := List.drop_eq_getElem_cons hi
    rw [search_ip_loop, read_entry_nat tbl i (by omega), List.getElem?_eq_getElem hi]
    simp only [hd, List.take_succ_cons, List.map_cons, List.mem_cons]
    by_cases hx : tbl[i].addr = ip
    · simp [hx]
    · have hx2 : ¬ ip = tbl[i].addr := fun h => hx h.symm
      rw [if_neg hx, ih (i + 1) (by omega) (by omega)]
      simp only [hx2, false_or, List.indexOf_cons_ne _ hx]
      split
      · simp; omega
      · simp

/-- On a table with all its slots and `last_entry` within bounds, `search_ip` returns the
first index of the address among the populated ones, or `-1`. -/
theorem search_ip_eq (s : State) (ip : uip_ipaddr_t) (hlen : s.rpl_stats.length = TABLE_ENTRIES)
    (hhi : s.last_entry ≤ TABLE_ENTRIES) :
    search_ip s ip = some (if ip ∈ addrs s then ((List.indexOf ip (addrs s) : Nat) : Int) else -1) := by
  have h := search_ip_loop_eq s.rpl_stats ip s.last_entry.toNat 0 (by omega) (by omega)
  simpa [search_ip, addrs] using h

/-! ### Conversions on the values that occur -/

theorem int_to_uint32_uint32_to_int (c : Nat) (h : c < 2 ^ 32) :
    int_to_uint32 (uint32_to_int c) = c := by
  unfold int_to_uint32 uint32_to_int
  split <;> omega

theorem int_to_uint32_zero : int_to_uint32 0 = 0 := by decide

theorem int_to_uint32_of_nat (n : Nat) (h : n < 2 ^ 32) : int_to_uint32 (n : Int) = n := by
  unfold int_to_uint32; omega

theorem uint32_to_int_of_nat (n : Nat) (h : n < 2 ^ 31) : uint32_to_int n = (n : Int) := by
  unfold uint32_to_int
  split <;> omega

theorem long_to_int_of_small (x : Int) (h0 : -(2 ^ 31) ≤ x) (h1 : x < 2 ^ 31) :
    long_to_int x = x := by
  unfold long_to_int; omega

theorem to_size_t_of_nat (n : Nat) (h : n < 2 ^ 64) : to_size_t (n : Int) = n := by
  unfold to_size_t; omega

/-! ### The populated addresses -/

theorem addrs_length (s : State) (hlen : s.rpl_stats.length = TABLE_ENTRIES)
    (hhi : s.last_entry ≤ TABLE_ENTRIES) : (addrs s).length = s.last_entry.toNat := by
  simp only [addrs, List.length_map, List.length_take]
  omega

theorem addrs_getElem? (s : State) (i : Nat) (hi : i < s.last_entry.toNat) :
    (addrs s)[i]? = (s.rpl_stats[i]?).map (fun e => e.addr) := by
  simp [addrs, List.getElem?_take, hi]

/-- Overwriting a slot with an entry of the same address keeps the scanned addresses. -/
theorem map_addr_take_set_same (tbl : List rpl_stats_entry) (n i : Nat)
    (e e1 : rpl_stats_entry) (h : tbl[i]? = some e) (ha : e1.addr = e.addr) :
    ((tbl.set i e1).take n).map (fun e => e.addr) = (tbl.take n).map (fun e => e.addr) := by
  apply List.ext_getElem?
  intro j
  simp only [List.getElem?_map, List.getElem?_take, List.getElem?_set]
  by_cases hj : j < n
  · by_cases hij : i = j
    · subst hij
      have hlt : i < tbl.length := by
        by_contra hc
        rw [List.getElem?_eq_none (by omega)] at h
        exact Option.noConfusion h
      simp [hj, hlt, h, ha]
    · simp [hj, hij]
  · simp [hj]

/-- Writing the slot just after the scanned ones and scanning one more appends its address. -/
theorem map_addr_take_set_next (tbl : List rpl_stats_entry) (n : Nat)
    (e1 : rpl_stats_entry) (h : n < tbl.length) :
    ((tbl.set n e1).take (n + 1)).map (fun e => e.addr) =
      (tbl.take n).map (fun e => e.addr) ++ [e1.addr] := by
  have h1 : (tbl.set n e1).take n = tbl.take n := by
    apply List.ext_getElem?
    intro j
    simp only [List.getElem?_take, List.getElem?_set]
    by_cases hj : j < n
    · have : ¬ n = j := by omega
      simp [hj, this]
    · simp [hj]
  rw [List.take_succ, h1]
  simp [List.getElem?_set, h]

/-! ### The three cases of `rpl_increment_stat_count` -/

theorem update_entry_nat (tbl : List rpl_stats_entry) (i : Nat) (e : rpl_stats_entry)
    (f : rpl_stats_entry → rpl_stats_entry) (hi : i < TABLE_ENTRIES) (h : tbl[i]? = some e) :
    update_entry tbl (i : Int) f = some (tbl.set i (f e)) := by
  unfold update_entry
  rw [read_entry_nat tbl i hi, h]
  simp

/-- The position of a populated address: its slot exists and holds that address. -/
theorem indexOf_addrs_spec (s : State) (a : uip_ipaddr_t)
    (hlen : s.rpl_stats.length = TABLE_ENTRIES) (hhi : s.last_entry ≤ TABLE_ENTRIES)
    (ha : a ∈ addrs s) :
    List.indexOf a (addrs s) < s.last_entry.toNat ∧
      ∃ e, s.rpl_stats[List.indexOf a (addrs s)]? = some e ∧ e.addr = a := by
  have hlt : List.indexOf a (addrs s) < (addrs s).length := List.indexOf_lt_length.mpr ha
  have hn := addrs_length s hlen hhi
  have hlt2 : List.indexOf a (addrs s) < s.last_entry.toNat := by omega
  refine ⟨hlt2, ?_⟩
  have hg : (addrs s)[List.indexOf a (addrs s)]? = some a := by
    rw [List.getElem?_eq_getElem hlt]
    simp
  rw [addrs_getElem? s _ hlt2] at hg
  cases hq : s.rpl_stats[List.indexOf a (addrs s)]? with
  | none => rw [hq] at hg; exact Option.noConfusion hg
  | some e =>
    rw [hq] at hg
    exact ⟨e, rfl, by simpa using hg⟩

/-- Found: the counter of the record at the found position is incremented in place. -/
theorem record_present (s : State) (a : uip_ipaddr_t) (k : rpl_messages_e)
    (hlen : s.rpl_stats.length = TABLE_ENTRIES) (hhi : s.last_entry ≤ TABLE_ENTRIES)
    (ha : a ∈ addrs s) (e : rpl_stats_entry)
    (he : s.rpl_stats[List.indexOf a (addrs s)]? = some e) :
    rpl_increment_stat_count s a k =
      some { s with rpl_stats := s.rpl_stats.set (List.indexOf a (addrs s)) (incr_count k e) } := by
  have hspec := indexOf_addrs_spec s a hlen hhi ha
  have hi64 : List.indexOf a (addrs s) < TABLE_ENTRIES := by omega
  unfold rpl_increment_stat_count
  rw [search_ip_eq s a hlen hhi, if_pos ha]
  have hneg : ¬ ((List.indexOf a (addrs s) : Nat) : Int) < 0 := by omega
  simp only [hneg, if_false]
  rw [update_entry_nat _ _ e _ hi64 he]

/-- Not found and the table is full: nothing changes. -/
theorem record_absent_full (s : State) (a : uip_ipaddr_t) (k : rpl_messages_e)
    (hlen : s.rpl_stats.length = TABLE_ENTRIES) (hhi : s.last_entry ≤ TABLE_ENTRIES)
    (ha : a ∉ addrs s) (hfull : s.last_entry ≥ TABLE_ENTRIES) :
    rpl_increment_stat_count s a k = some s := by
  unfold rpl_increment_stat_count
  rw [search_ip_eq s a hlen hhi, if_neg ha]
  have hm : (-1 : Int) < 0 := by decide
  simp only [hm, if_true, hfull]

/-- Not found and there is room: the slot at `last_entry` takes the address, its counter
is incremented and `last_entry` moves on by one. -/
theorem record_absent_room (s : State) (a : uip_ipaddr_t) (k : rpl_messages_e)
    (hlen : s.rpl_stats.length = TABLE_ENTRIES) (hlo : 0 ≤ s.last_entry)
    (hroom : s.last_entry < TABLE_ENTRIES) (ha : a ∉ addrs s) (e : rpl_stats_entry)
    (he : s.rpl_stats[s.last_entry.toNat]? = some e) :
    rpl_increment_stat_count s a k =
      some { rpl_stats := s.rpl_stats.set s.last_entry.toNat (incr_count k { e with addr := a }),
             last_entry := s.last_entry + 1 } := by
  unfold rpl_increment_stat_count
  rw [search_ip_eq s a hlen (by omega), if_neg ha]
  have h1 : ¬ s.last_entry ≥ (TABLE_ENTRIES : Int) := by omega
  obtain ⟨n, hn⟩ := Int.eq_ofNat_of_zero_le hlo
  have hn2 : s.last_entry.toNat = n := by omega
  rw [hn2] at he
  have hm : (-1 : Int) < 0 := by decide
  simp only [hm, if_true, h1, if_false]
  rw [hn, update_entry_nat _ n e _ (by omega) he]
  simp only [Int.toNat_ofNat]

/-! ### Effect of `incr_count` on one entry -/

theorem incr_count_addr (k : rpl_messages_e) (e : rpl_stats_entry) :
    (incr_count k e).addr = e.addr := by
  cases k <;> rfl

theorem incr_count_dio_attacker (k : rpl_messages_e) (e : rpl_stats_entry) :
    (incr_count k e).dio_attacker = e.dio_attacker := by
  cases k <;> rfl

theorem incr_count_dis_attacker (k : rpl_messages_e) (e : rpl_stats_entry) :
    (incr_count k e).dis_attacker = e.dis_attacker := by
  cases k <;> rfl

theorem count_of_incr_count (k k1 : rpl_messages_e) (e : rpl_stats_entry) :
    count_of k1 (incr_count k e) =
      if k1 = k then (count_of k1 e + 1) % 2 ^ 32 else count_of k1 e := by
  cases k <;> cases k1 <;> simp [count_of, incr_count]

theorem count_of_lt (k : rpl_messages_e) (e : rpl_stats_entry) (h : entry_u32 e) :
    count_of k e < 2 ^ 32 := by
  cases k
  · exact h.1
  · exact h.2.1
  · exact h.2.2

theorem incr_count_u32 (k : rpl_messages_e) (e : rpl_stats_entry) (h : entry_u32 e) :
    entry_u32 (incr_count k e) := by
  obtain ⟨h1, h2, h3⟩ := h
  cases k
  · exact ⟨Nat.mod_lt _ (by norm_num), h2, h3⟩
  · exact ⟨h1, Nat.mod_lt _ (by norm_num), h3⟩
  · exact ⟨h1, h2, Nat.mod_lt _ (by norm_num)⟩

theorem zero_entry_u32 : entry_u32 zero_entry := by
  refine ⟨?_, ?_, ?_⟩ <;> simp [zero_entry]

/-! ### The invariant -/

theorem Inv.entry_u32_of_getElem? {s : State} (h : Inv s) {i : Nat} {e : rpl_stats_entry}
    (he : s.rpl_stats[i]? = some e) : entry_u32 e :=
  h.u32 e (List.getElem?_mem he)

theorem inv_init : Inv init_state := by
  refine ⟨by simp [init_state], by simp [init_state], by simp [init_state], ?_, ?_, ?_⟩
  · simp [addrs, init_state]
  · intro i _ hi
    simp only [init_state]
    rw [List.getElem?_replicate]
    simp [hi]
  · intro e he
    simp only [init_state] at he
    rw [List.eq_of_mem_replicate he]
    exact zero_entry_u32

theorem inv_reset (s : State) : Inv (rpl_reset_stats s) := inv_init

/-- Writing an entry with unchanged address into a populated slot keeps the invariant. -/
theorem inv_set_same {s : State} (h : Inv s) (i : Nat) (e e1 : rpl_stats_entry)
    (hi : i < s.last_entry.toNat) (he : s.rpl_stats[i]? = some e) (ha : e1.addr = e.addr)
    (hu : entry_u32 e1) : Inv { s with rpl_stats := s.rpl_stats.set i e1 } := by
  refine ⟨by simpa using h.len, h.lo, h.hi, ?_, ?_, ?_⟩
  · have := map_addr_take_set_same s.rpl_stats s.last_entry.toNat i e e1 he ha
    simp only [addrs]
    rw [this]
    exact h.nodup
  · intro j hj hj64
    simp only at hj
    have hne : ¬ i = j := by omega
    simp only [List.getElem?_set, hne, if_false]
    exact h.zero j hj hj64
  · intro x hx
    rcases List.mem_or_eq_of_mem_set hx with hx1 | hx1
    · exact h.u32 x hx1
    · rw [hx1]; exact hu

theorem addrs_set_same {s : State} (i : Nat) (e e1 : rpl_stats_entry)
    (he : s.rpl_stats[i]? = some e) (ha : e1.addr = e.addr) :
    addrs { s with rpl_stats := s.rpl_stats.set i e1 } = addrs s := by
  simp only [addrs]
  exact map_addr_take_set_same s.rpl_stats s.last_entry.toNat i e e1 he ha

theorem addrs_set_next {s : State} (e1 : rpl_stats_entry) (hlo : 0 ≤ s.last_entry)
    (hlt : s.last_entry.toNat < s.rpl_stats.length) :
    addrs { rpl_stats := s.rpl_stats.set s.last_entry.toNat e1, last_entry := s.last_entry + 1 } =
      addrs s ++ [e1.addr] := by
  simp only [addrs]
  have : (s.last_entry + 1).toNat = s.last_entry.toNat + 1 := by omega
  rw [this]
  exact map_addr_take_set_next s.rpl_stats s.last_entry.toNat e1 hlt

/-- Populating the next free slot with a new address keeps the invariant. -/
theorem inv_set_next {s : State} (h : Inv s) (e1 : rpl_stats_entry)
    (hroom : s.last_entry < TABLE_ENTRIES) (ha : e1.addr ∉ addrs s) (hu : entry_u32 e1) :
    Inv { rpl_stats := s.rpl_stats.set s.last_entry.toNat e1, last_entry := s.last_entry + 1 } := by
  have hlo := h.lo
  have hlen := h.len
  refine ⟨by simpa using h.len, by simp only; omega, by simp only; omega, ?_, ?_, ?_⟩
  · rw [addrs_set_next e1 hlo (by omega)]
    rw [List.nodup_append]
    refine ⟨h.nodup, by simp, ?_⟩
    intro x hx hx1
    simp only [List.mem_singleton] at hx1
    exact ha (hx1 ▸ hx)
  · intro j hj hj64
    simp only at hj
    have hne : ¬ s.last_entry.toNat = j := by omega
    simp only [List.getElem?_set, hne, if_false]
    exact h.zero j (by omega) hj64
  · intro x hx
    rcases List.mem_or_eq_of_mem_set hx with hx1 | hx1
    · exact h.u32 x hx1
    · rw [hx1]; exact hu

/-! ### The query functions on a well-formed table -/

theorem read_ip_mem (s : State) (a : uip_ipaddr_t) (k : rpl_messages_e)
    (hlen : s.rpl_stats.length = TABLE_ENTRIES) (hhi : s.last_entry ≤ TABLE_ENTRIES)
    (ha : a ∈ addrs s) (e : rpl_stats_entry)
    (he : s.rpl_stats[List.indexOf a (addrs s)]? = some e) (hu : entry_u32 e) :
    rpl_read_stat_count_ip s a k = some (count_of k e) := by
  have hspec := indexOf_addrs_spec s a hlen hhi ha
  have h64 : ((TABLE_ENTRIES : Nat) : Int) = 64 := rfl
  have hi64 : List.indexOf a (addrs s) < TABLE_ENTRIES := by omega
  unfold rpl_read_stat_count_ip
  rw [search_ip_eq s a hlen hhi, if_pos ha]
  have hl : long_to_int ((List.indexOf a (addrs s) : Nat) : Int) = ((List.indexOf a (addrs s) : Nat) : Int) :=
    long_to_int_of_small _ (by omega) (by omega)
  have hneg : ¬ ((List.indexOf a (addrs s) : Nat) : Int) < 0 := by omega
  simp only [hl, hneg, if_false]
  rw [read_entry_nat _ _ hi64, he]
  simp only
  rw [int_to_uint32_uint32_to_int _ (count_of_lt k e hu)]

theorem read_ip_not_mem (s : State) (a : uip_ipaddr_t) (k : rpl_messages_e)
    (hlen : s.rpl_stats.length = TABLE_ENTRIES) (hhi : s.last_entry ≤ TABLE_ENTRIES)
    (ha : a ∉ addrs s) : rpl_read_stat_count_ip s a k = some 0 := by
  unfold rpl_read_stat_count_ip
  rw [search_ip_eq s a hlen hhi, if_neg ha]
  have hl : long_to_int (-1) < 0 := by decide
  simp only [hl, if_true, int_to_uint32_zero]

/-- With pairwise distinct addresses, the address stored at a populated index is found at
that index. -/
theorem indexOf_addr_of_getElem? {s : State} (h : Inv s) {i : Nat} {e : rpl_stats_entry}
    (hi : i < s.last_entry.toNat) (he : s.rpl_stats[i]? = some e) :
    e.addr ∈ addrs s ∧ List.indexOf e.addr (addrs s) = i := by
  have hn := addrs_length s h.len h.hi
  have hlt : i < (addrs s).length := by omega
  have hg : (addrs s)[i]? = some e.addr := by
    rw [addrs_getElem? s i hi, he]; rfl
  have hg2 : (addrs s)[i] = e.addr := by
    rw [List.getElem?_eq_getElem hlt] at hg
    exact Option.some.inj hg
  refine ⟨hg2 ▸ List.getElem_mem hlt, ?_⟩
  rw [← hg2]
  exact List.indexOf_getElem h.nodup i hlt

theorem read_ip_of_getElem? {s : State} (h : Inv s) {i : Nat} {e : rpl_stats_entry}
    (hi : i < s.last_entry.toNat) (he : s.rpl_stats[i]? = some e) (k : rpl_messages_e) :
    rpl_read_stat_count_ip s e.addr k = some (count_of k e) := by
  obtain ⟨hm, hidx⟩ := indexOf_addr_of_getElem? h hi he
  exact read_ip_mem s e.addr k h.len h.hi hm e (by rw [hidx]; exact he)
    (h.entry_u32_of_getElem? he)

theorem read_index_ge (s : State) (i : Nat) (k : rpl_messages_e) (hlo : 0 ≤ s.last_entry)
    (hhi : s.last_entry ≤ TABLE_ENTRIES) (hi : s.last_entry.toNat ≤ i) :
    rpl_read_stat_count_index s i k = some 0 := by
  unfold rpl_read_stat_count_index
  have h64 : ((TABLE_ENTRIES : Nat) : Int) = 64 := rfl
  have h1 : to_size_t s.last_entry = s.last_entry.toNat := by
    unfold to_size_t; omega
  rw [if_pos (by omega), int_to_uint32_zero]

theorem read_index_lt (s : State) (i : Nat) (k : rpl_messages_e) (hlo : 0 ≤ s.last_entry)
    (hhi : s.last_entry ≤ TABLE_ENTRIES) (hi : i < s.last_entry.toNat) (e : rpl_stats_entry)
    (he : s.rpl_stats[i]? = some e) (hu : entry_u32 e) :
    rpl_read_stat_count_index s i k = some (count_of k e) := by
  unfold rpl_read_stat_count_index
  have h64 : ((TABLE_ENTRIES : Nat) : Int) = 64 := rfl
  have h1 : to_size_t s.last_entry = s.last_entry.toNat := by
    unfold to_size_t; omega
  rw [if_neg (by omega), read_entry_nat _ _ (by omega), he]
  simp only
  rw [int_to_uint32_uint32_to_int _ (count_of_lt k e hu)]

/-! ### `rpl_increment_stat_count` on a table satisfying the invariant -/

/-- The three outcomes of `rpl_increment_stat_count` on a table satisfying the invariant. -/
theorem record_cases {s : State} (h : Inv s) (a : uip_ipaddr_t) (k : rpl_messages_e) :
    (a ∈ addrs s ∧ ∃ e, s.rpl_stats[List.indexOf a (addrs s)]? = some e ∧ e.addr = a ∧
        List.indexOf a (addrs s) < s.last_entry.toNat ∧
        rpl_increment_stat_count s a k = some (found_state s (List.indexOf a (addrs s)) e k)) ∨
    (a ∉ addrs s ∧ s.last_entry = TABLE_ENTRIES ∧ rpl_increment_stat_count s a k = some s) ∨
    (a ∉ addrs s ∧ s.last_entry < TABLE_ENTRIES ∧
        rpl_increment_stat_count s a k = some (appended_state s a k)) := by
  have h64 : ((TABLE_ENTRIES : Nat) : Int) = 64 := rfl
  by_cases ha : a ∈ addrs s
  · left
    obtain ⟨hlt, e, he, hea⟩ := indexOf_addrs_spec s a h.len h.hi ha
    exact ⟨ha, e, he, hea, hlt, record_present s a k h.len h.hi ha e he⟩
  · right
    by_cases hfull : s.last_entry ≥ TABLE_ENTRIES
    · left
      exact ⟨ha, le_antisymm h.hi hfull, record_absent_full s a k h.len h.hi ha hfull⟩
    · right
      have hroom : s.last_entry < TABLE_ENTRIES := by omega
      have hz := h.zero s.last_entry.toNat (le_refl _) (by have := h.lo; omega)
      exact ⟨ha, hroom, record_absent_room s a k h.len h.lo hroom ha zero_entry hz⟩

theorem inv_found_state {s : State} (h : Inv s) {i : Nat} {e : rpl_stats_entry}
    (hi : i < s.last_entry.toNat) (he : s.rpl_stats[i]? = some e) (k : rpl_messages_e) :
    Inv (found_state s i e k) :=
  inv_set_same h i e (incr_count k e) hi he (incr_count_addr k e)
    (incr_count_u32 k e (h.entry_u32_of_getElem? he))

theorem inv_appended_state {s : State} (h : Inv s) {a : uip_ipaddr_t}
    (hroom : s.last_entry < TABLE_ENTRIES) (ha : a ∉ addrs s) (k : rpl_messages_e) :
    Inv (appended_state s a k) :=
  inv_set_next h _ hroom (by rw [incr_count_addr]; exact ha)
    (incr_count_u32 k _ zero_entry_u32)

/-- On a table satisfying the invariant, `rpl_increment_stat_count` accesses the array in
bounds only and re-establishes the invariant. -/
theorem record_inv {s : State} (h : Inv s) (a : uip_ipaddr_t) (k : rpl_messages_e) :
    ∃ s1, rpl_increment_stat_count s a k = some s1 ∧ Inv s1 := by
  rcases record_cases h a k with ⟨_, e, he, _, hlt, hr⟩ | ⟨_, _, hr⟩ | ⟨ha, hroom, hr⟩
  · exact ⟨_, hr, inv_found_state h hlt he k⟩
  · exact ⟨_, hr, h⟩
  · exact ⟨_, hr, inv_appended_state h hroom ha k⟩

theorem record_inv_of_eq {s s1 : State} (h : Inv s) {a : uip_ipaddr_t} {k : rpl_messages_e}
    (hr : rpl_increment_stat_count s a k = some s1) : Inv s1 := by
  obtain ⟨s2, h2, hinv⟩ := record_inv h a k
  rw [hr] at h2
  rw [Option.some.inj h2]
  exact hinv

theorem addrs_found_state {s : State} {i : Nat} {e : rpl_stats_entry}
    (he : s.rpl_stats[i]? = some e) (k : rpl_messages_e) :
    addrs (found_state s i e k) = addrs s :=
  addrs_set_same i e (incr_count k e) he (incr_count_addr k e)

theorem addrs_appended_state {s : State} (h : Inv s) (a : uip_ipaddr_t)
    (hroom : s.last_entry < TABLE_ENTRIES) (k : rpl_messages_e) :
    addrs (appended_state s a k) = addrs s ++ [a] := by
  have h64 : ((TABLE_ENTRIES : Nat) : Int) = 64 := rfl
  have hlo := h.lo
  have hlen := h.len
  have := addrs_set_next (s := s) (incr_count k { zero_entry with addr := a }) h.lo (by omega)
  rw [incr_count_addr] at this
  exact this

/-- Effect of one call on the populated addresses and on `last_entry`. -/
theorem record_addrs {s s1 : State} (h : Inv s) {a : uip_ipaddr_t} {k : rpl_messages_e}
    (hr : rpl_increment_stat_count s a k = some s1) :
    (addrs s1 = if a ∈ addrs s ∨ s.last_entry = TABLE_ENTRIES then addrs s else addrs s ++ [a]) ∧
    (s1.last_entry = if a ∈ addrs s ∨ s.last_entry = TABLE_ENTRIES then s.last_entry
      else s.last_entry + 1) := by
  rcases record_cases h a k with ⟨ha, e, he, _, hlt, hr1⟩ | ⟨_, hfull, hr1⟩ | ⟨ha, hroom, hr1⟩
  · rw [hr] at hr1
    rw [Option.some.inj hr1, if_pos (Or.inl ha), if_pos (Or.inl ha)]
    exact ⟨addrs_found_state he k, rfl⟩
  · rw [hr] at hr1
    rw [Option.some.inj hr1, if_pos (Or.inr hfull), if_pos (Or.inr hfull)]
    exact ⟨rfl, rfl⟩
  · rw [hr] at hr1
    have hn : ¬ (a ∈ addrs s ∨ s.last_entry = TABLE_ENTRIES) := by
      rintro (h1 | h1)
      · exact ha h1
      · omega
    rw [Option.some.inj hr1, if_neg hn, if_neg hn]
    exact ⟨addrs_appended_state h a hroom k, rfl⟩

/-! ### Runs of `rpl_increment_stat_count`, claim C1 -/

theorem addrs_card {s : State} (h : Inv s) :
    (addrs s).toFinset.card = s.last_entry.toNat := by
  rw [List.toFinset_card_of_nodup h.nodup, addrs_length s h.len h.hi]

/-- After a run from a table satisfying the invariant, `last_entry` is the number of
distinct addresses among those stored before and those recorded, capped at the capacity. -/
theorem record_all_last_entry (l : List (uip_ipaddr_t × rpl_messages_e)) :
    ∀ {s : State}, Inv s → ∃ s1, record_all s l = some s1 ∧ Inv s1 ∧
      s1.last_entry.toNat =
        min ((addrs s).toFinset ∪ (l.map Prod.fst).toFinset).card TABLE_ENTRIES := by
  have h64 : ((TABLE_ENTRIES : Nat) : Int) = 64 := rfl
  induction l with
  | nil =>
    intro s h
    refine ⟨s, rfl, h, ?_⟩
    have hc := addrs_card h
    have hhi := h.hi
    simp only [List.map_nil, List.toFinset_nil, Finset.union_empty, hc]
    omega
  | cons p l ih =>
    intro s h
    obtain ⟨a, k⟩ := p
    obtain ⟨s1, hr, h1⟩ := record_inv h a k
    obtain ⟨s2, hr2, h2, hcard⟩ := ih h1
    refine ⟨s2, by simp only [record_all, hr]; exact hr2, h2, ?_⟩
    rw [hcard]
    obtain ⟨hadd, hlast⟩ := record_addrs h hr
    simp only [List.map_cons, List.toFinset_cons]
    by_cases ha : a ∈ addrs s
    · rw [if_pos (Or.inl ha)] at hadd
      rw [hadd]
      have : (addrs s).toFinset ∪ insert a (l.map Prod.fst).toFinset =
          (addrs s).toFinset ∪ (l.map Prod.fst).toFinset := by
        ext x
        simp only [Finset.mem_union, Finset.mem_insert, List.mem_toFinset]
        constructor
        · rintro (hx | hx | hx)
          · exact Or.inl hx
          · exact Or.inl (hx ▸ ha)
          · exact Or.inr hx
        · rintro (hx | hx)
          · exact Or.inl hx
          · exact Or.inr (Or.inr hx)
      rw [this]
    · by_cases hfull : s.last_entry = TABLE_ENTRIES
      · rw [if_pos (Or.inr hfull)] at hadd
        rw [hadd]
        have hc := addrs_card h
        have hA : ∀ t : Finset uip_ipaddr_t, TABLE_ENTRIES ≤ ((addrs s).toFinset ∪ t).card := by
          intro t
          have hsub : (addrs s).toFinset ⊆ (addrs s).toFinset ∪ t := Finset.subset_union_left
          have := Finset.card_le_card hsub
          omega
        rw [Nat.min_eq_right (hA _), Nat.min_eq_right (hA _)]
      · have hn : ¬ (a ∈ addrs s ∨ s.last_entry = TABLE_ENTRIES) := by
          rintro (hx | hx)
          · exact ha hx
          · exact hfull hx
        rw [if_neg hn] at hadd
        rw [hadd]
        have : (addrs s ++ [a]).toFinset ∪ (l.map Prod.fst).toFinset =
            (addrs s).toFinset ∪ insert a (l.map Prod.fst).toFinset := by
          ext x
          simp only [Finset.mem_union, Finset.mem_insert, List.mem_toFinset, List.mem_append,
            List.mem_singleton]
          tauto
        rw [this]

/-- Claim C1. For every finite sequence of `rpl_increment_stat_count` calls applied to the
start state, the run completes and `rpl_read_neighbor_num` afterwards equals the minimum
of the number of distinct addresses in the sequence and `TABLE_ENTRIES` (64). -/
theorem C1_neighbor_num_is_capped_distinct_count (l : List (uip_ipaddr_t × rpl_messages_e)) :
    ∃ s, record_all init_state l = some s ∧
      rpl_read_neighbor_num s = min (l.map Prod.fst).toFinset.card TABLE_ENTRIES := by
  obtain ⟨s, hr, hinv, hcard⟩ := record_all_last_entry l inv_init
  refine ⟨s, hr, ?_⟩
  have h0 : addrs init_state = [] := by simp [addrs, init_state]
  rw [h0] at hcard
  simp only [List.toFinset_nil, Finset.empty_union] at hcard
  rw [← hcard]
  have hlo := hinv.lo
  have hhi := hinv.hi
  have h64 : ((TABLE_ENTRIES : Nat) : Int) = 64 := rfl
  unfold rpl_read_neighbor_num int_to_uint32
  omega

/-! ### Reading a counter by address before and after a call -/

theorem read_ip_cases {s : State} (h : Inv s) (b : uip_ipaddr_t) (k1 : rpl_messages_e) :
    (b ∈ addrs s ∧ ∃ e, s.rpl_stats[List.indexOf b (addrs s)]? = some e ∧ e.addr = b ∧
        List.indexOf b (addrs s) < s.last_entry.toNat ∧
        rpl_read_stat_count_ip s b k1 = some (count_of k1 e)) ∨
    (b ∉ addrs s ∧ rpl_read_stat_count_ip s b k1 = some 0) := by
  by_cases hb : b ∈ addrs s
  · left
    obtain ⟨hlt, e, he, hea⟩ := indexOf_addrs_spec s b h.len h.hi hb
    exact ⟨hb, e, he, hea, hlt,
      read_ip_mem s b k1 h.len h.hi hb e he (h.entry_u32_of_getElem? he)⟩
  · right
    exact ⟨hb, read_ip_not_mem s b k1 h.len h.hi hb⟩

/-- A query by address for an address other than the recorded one is not affected, in
the found case. -/
theorem read_ip_found_state_ne {s : State} (h : Inv s) {a b : uip_ipaddr_t} {e : rpl_stats_entry}
    (he : s.rpl_stats[List.indexOf a (addrs s)]? = some e) (hea : e.addr = a)
    (hlt : List.indexOf a (addrs s) < s.last_entry.toNat) (k k1 : rpl_messages_e) (hne : b ≠ a) :
    rpl_read_stat_count_ip (found_state s (List.indexOf a (addrs s)) e k) b k1 =
      rpl_read_stat_count_ip s b k1 := by
  have h1 : Inv (found_state s (List.indexOf a (addrs s)) e k) := inv_found_state h hlt he k
  have hadd := addrs_found_state (s := s) he k
  rcases read_ip_cases h b k1 with ⟨hb, eb, heb, heba, _, hread⟩ | ⟨hb, hread⟩
  · rw [hread]
    have hidx : ¬ List.indexOf a (addrs s) = List.indexOf b (addrs s) := by
      intro hc
      rw [hc, heb] at he
      exact hne (by rw [← heba, Option.some.inj he, hea])
    refine read_ip_mem _ b k1 h1.len h1.hi (by rw [hadd]; exact hb) eb ?_
      (h.entry_u32_of_getElem? heb)
    rw [hadd]
    simp only [found_state, List.getElem?_set, hidx, if_false]
    exact heb
  · rw [hread]
    exact read_ip_not_mem _ b k1 h1.len h1.hi (by rw [hadd]; exact hb)

/-- A query by address for an address other than the recorded one is not affected, in
the append case. -/
theorem read_ip_appended_state_ne {s : State} (h : Inv s) {a b : uip_ipaddr_t}
    (ha : a ∉ addrs s) (hroom : s.last_entry < TABLE_ENTRIES) (k k1 : rpl_messages_e)
    (hne : b ≠ a) :
    rpl_read_stat_count_ip (appended_state s a k) b k1 = rpl_read_stat_count_ip s b k1 := by
  have h1 : Inv (appended_state s a k) := inv_appended_state h hroom ha k
  have hadd := addrs_appended_state h a hroom k
  rcases read_ip_cases h b k1 with ⟨hb, eb, heb, _, hlt, hread⟩ | ⟨hb, hread⟩
  · rw [hread]
    have hi : List.indexOf b (addrs s ++ [a]) = List.indexOf b (addrs s) :=
      List.indexOf_append_of_mem hb
    refine read_ip_mem _ b k1 h1.len h1.hi (by rw [hadd]; simp [hb]) eb ?_
      (h.entry_u32_of_getElem? heb)
    rw [hadd, hi]
    have hidx : ¬ s.last_entry.toNat = List.indexOf b (addrs s) := by omega
    simp only [appended_state, List.getElem?_set, hidx, if_false]
    exact heb
  · rw [hread]
    refine read_ip_not_mem _ b k1 h1.len h1.hi ?_
    rw [hadd]
    simp only [List.mem_append, List.mem_singleton, not_or]
    exact ⟨hb, hne⟩

/-- The value a query by address returns after one call of `rpl_increment_stat_count`,
in terms of the value it returned before: the call adds one, modulo `2 ^ 32`, to the
counter of its own address and kind unless it was dropped, and changes no other value. -/
theorem record_read_ip {s s1 : State} (h : Inv s) {a : uip_ipaddr_t} {k : rpl_messages_e}
    (hr : rpl_increment_stat_count s a k = some s1) (b : uip_ipaddr_t) (k1 : rpl_messages_e) :
    ∃ v, rpl_read_stat_count_ip s b k1 = some v ∧ v < 2 ^ 32 ∧
      rpl_read_stat_count_ip s1 b k1 =
        some (if (a ∈ addrs s ∨ s.last_entry < TABLE_ENTRIES) ∧ b = a ∧ k1 = k then
          (v + 1) % 2 ^ 32 else v) := by
  have h64 : ((TABLE_ENTRIES : Nat) : Int) = 64 := rfl
  have hv : ∃ v, rpl_read_stat_count_ip s b k1 = some v ∧ v < 2 ^ 32 := by
    rcases read_ip_cases h b k1 with ⟨_, eb, heb, _, _, hread⟩ | ⟨_, hread⟩
    · exact ⟨_, hread, count_of_lt k1 eb (h.entry_u32_of_getElem? heb)⟩
    · exact ⟨0, hread, by norm_num⟩
  obtain ⟨v, hv1, hv2⟩ := hv
  refine ⟨v, hv1, hv2, ?_⟩
  rcases record_cases h a k with ⟨ha, e, he, hea, hlt, hr1⟩ | ⟨ha, hfull, hr1⟩ | ⟨ha, hroom, hr1⟩
  · rw [hr] at hr1
    rw [Option.some.inj hr1]
    by_cases hb : b = a
    · subst hb
      have h1 : Inv (found_state s (List.indexOf b (addrs s)) e k) := inv_found_state h hlt he k
      have hs1 : (found_state s (List.indexOf b (addrs s)) e k).rpl_stats[
          List.indexOf b (addrs s)]? = some (incr_count k e) := by
        have hl : List.indexOf b (addrs s) < s.rpl_stats.length := by
          have := h.len; have := h.hi; omega
        simp [found_state, List.getElem?_set, hl]
      have hread1 := read_ip_of_getElem? h1 (i := List.indexOf b (addrs s)) hlt hs1 k1
      rw [incr_count_addr, hea] at hread1
      have hread0 := read_ip_of_getElem? h hlt he k1
      rw [hea, hv1] at hread0
      rw [hread1, count_of_incr_count, ← Option.some.inj hread0]
      by_cases hk : k1 = k
      · simp [hk, ha]
      · simp [hk]
    · rw [read_ip_found_state_ne h he hea hlt k k1 hb, hv1]
      simp [hb]
  · rw [hr] at hr1
    rw [Option.some.inj hr1, hv1]
    have : ¬ ((a ∈ addrs s ∨ s.last_entry < TABLE_ENTRIES) ∧ b = a ∧ k1 = k) := by
      rintro ⟨h1 | h1, _⟩
      · exact ha h1
      · omega
    rw [if_neg this]
  · rw [hr] at hr1
    rw [Option.some.inj hr1]
    by_cases hb : b = a
    · subst hb
      have h1 : Inv (appended_state s b k) := inv_appended_state h hroom ha k
      have hs1 : (appended_state s b k).rpl_stats[s.last_entry.toNat]? =
          some (incr_count k { zero_entry with addr := b }) := by
        have hl : s.last_entry.toNat < s.rpl_stats.length := by
          have := h.len; have := h.lo; omega
        simp [appended_state, List.getElem?_set, hl]
      have hlt : s.last_entry.toNat < (appended_state s b k).last_entry.toNat := by
        have := h.lo
        simp only [appended_state]; omega
      have hread1 := read_ip_of_getElem? h1 hlt hs1 k1
      rw [incr_count_addr] at hread1
      have hread0 := read_ip_not_mem s b k1 h.len h.hi ha
      rw [hv1] at hread0
      rw [hread1, count_of_incr_count, Option.some.inj hread0]
      have hroom1 : s.last_entry < 64 := by omega
      by_cases hk : k1 = k
      · subst hk
        cases k1 <;> simp [hroom1, count_of, zero_entry]
      · cases k1 <;> simp [hk, count_of, zero_entry]
    · rw [read_ip_appended_state_ne h ha hroom k k1 hb, hv1]
      simp [hb]

/-! ### The flag-writing loops of the detectors -/

theorem check_dis_loop_eq_flag_loop : ∀ (remaining i : Nat) (s : State),
    check_dis_loop remaining i s =
      flag_loop rpl_messages_e.DIS (fun c => decide (uint32_to_float c > DIS_THRESHOLD))
        (fun e => { e with dis_attacker := true }) remaining i s := by
  intro remaining
  induction remaining with
  | zero => intro i s; rfl
  | succ n ih =>
    intro i s
    simp only [check_dis_loop, flag_loop, ih, decide_eq_true_eq]

theorem dio_flag_loop_eq_flag_loop {F : Type} (fm : FloatModel F) (avg k stddev : F) :
    ∀ (remaining i : Nat) (s : State),
    dio_flag_loop fm avg k stddev remaining i s =
      flag_loop rpl_messages_e.DIO (fun c => fm.gt (fm.of_uint32 c) (fm.add avg (fm.mul k stddev)))
        (fun e => { e with dio_attacker := true }) remaining i s := by
  intro remaining
  induction remaining with
  | zero => intro i s; rfl
  | succ n ih =>
    intro i s
    simp only [dio_flag_loop, flag_loop, ih]

theorem keeps_counts_u32 {f : rpl_stats_entry → rpl_stats_entry} (hf : keeps_counts f)
    {e : rpl_stats_entry} (h : entry_u32 e) : entry_u32 (f e) := by
  obtain ⟨_, h1, h2, h3⟩ := hf e
  unfold entry_u32
  rw [h1, h2, h3]
  exact h

theorem keeps_counts_count_of {f : rpl_stats_entry → rpl_stats_entry} (hf : keeps_counts f)
    (k : rpl_messages_e) (e : rpl_stats_entry) : count_of k (f e) = count_of k e := by
  obtain ⟨_, h1, h2, h3⟩ := hf e
  cases k
  · exact h1
  · exact h2
  · exact h3

/-- A populated index holds an entry. -/
theorem Inv.exists_entry {s : State} (h : Inv s) {i : Nat} (hi : i < s.last_entry.toNat) :
    ∃ e, s.rpl_stats[i]? = some e := by
  have h64 : ((TABLE_ENTRIES : Nat) : Int) = 64 := rfl
  have hlen := h.len
  have hhi := h.hi
  have hl : i < s.rpl_stats.length := by omega
  exact ⟨s.rpl_stats[i], List.getElem?_eq_getElem hl⟩

/-- The flag-writing loop over the populated indices `[i, i + remaining)` completes,
keeps the invariant and `last_entry`, and rewrites exactly the entries in that range
whose counter passes the test. -/
theorem flag_loop_spec (type : rpl_messages_e) (test : Nat → Bool)
    (f : rpl_stats_entry → rpl_stats_entry) (hf : keeps_counts f) :
    ∀ (remaining i : Nat) (s : State), Inv s → i + remaining ≤ s.last_entry.toNat →
      ∃ s1, flag_loop type test f remaining i s = some s1 ∧ Inv s1 ∧
        s1.last_entry = s.last_entry ∧
        ∀ j, s1.rpl_stats[j]? = (s.rpl_stats[j]?).map (fun e =>
          if i ≤ j ∧ j < i + remaining ∧ test (count_of type e) = true then f e else e) := by
  have h64 : ((TABLE_ENTRIES : Nat) : Int) = 64 := rfl
  intro remaining
  induction remaining with
  | zero =>
    intro i s h _
    refine ⟨s, rfl, h, rfl, ?_⟩
    intro j
    have : ∀ e : rpl_stats_entry,
        (if i ≤ j ∧ j < i + 0 ∧ test (count_of type e) = true then f e else e) = e := by
      intro e
      rw [if_neg (by omega)]
    simp only [this, Option.map_id', id_eq]
  | succ n ih =>
    intro i s h hin
    have hi : i < s.last_entry.toNat := by omega
    have hhi := h.hi
    obtain ⟨e, he⟩ := h.exists_entry hi
    have hread : rpl_read_stat_count_index s (to_size_t i) type = some (count_of type e) := by
      rw [to_size_t_of_nat i (by omega)]
      exact read_index_lt s i type h.lo h.hi hi e he (h.entry_u32_of_getElem? he)
    rw [flag_loop, hread]
    simp only
    by_cases ht : test (count_of type e) = true
    · rw [if_pos ht, update_entry_nat _ i e f (by omega) he]
      simp only
      have h1 : Inv { s with rpl_stats := s.rpl_stats.set i (f e) } :=
        inv_set_same h i e (f e) hi he (hf e).1 (keeps_counts_u32 hf (h.entry_u32_of_getElem? he))
      obtain ⟨s1, hs1, hinv1, hlast1, hget1⟩ := ih (i + 1) _ h1 (by simp only; omega)
      refine ⟨s1, hs1, hinv1, hlast1, ?_⟩
      intro j
      rw [hget1 j]
      simp only [List.getElem?_set]
      by_cases hij : i = j
      · subst hij
        have hl : i < s.rpl_stats.length := by have := h.len; omega
        simp only [if_true, hl, he, Option.map_some']
        rw [if_neg (by omega), if_pos ⟨le_refl _, by omega, ht⟩]
      · simp only [hij, if_false]
        congr 1
        funext x
        have : (i + 1 ≤ j ∧ j < i + 1 + n ∧ test (count_of type x) = true) ↔
            (i ≤ j ∧ j < i + (n + 1) ∧ test (count_of type x) = true) := by
          constructor
          · rintro ⟨a1, a2, a3⟩; exact ⟨by omega, by omega, a3⟩
          · rintro ⟨a1, a2, a3⟩; exact ⟨by omega, by omega, a3⟩
        simp only [this]
    · rw [if_neg ht]
      obtain ⟨s1, hs1, hinv1, hlast1, hget1⟩ := ih (i + 1) s h (by omega)
      refine ⟨s1, hs1, hinv1, hlast1, ?_⟩
      intro j
      rw [hget1 j]
      by_cases hij : i = j
      · subst hij
        simp only [he, Option.map_some']
        rw [if_neg (by omega), if_neg (fun hc => ht hc.2.2)]
      · congr 1
        funext x
        have : (i + 1 ≤ j ∧ j < i + 1 + n ∧ test (count_of type x) = true) ↔
            (i ≤ j ∧ j < i + (n + 1) ∧ test (count_of type x) = true) := by
          constructor
          · rintro ⟨a1, a2, a3⟩; exact ⟨by omega, by omega, a3⟩
          · rintro ⟨a1, a2, a3⟩; exact ⟨by omega, by omega, a3⟩
        simp only [this]

/-! ### The detectors on a table satisfying the invariant -/

theorem neighbors_eq {s : State} (h : Inv s) :
    rpl_read_neighbor_num s = s.last_entry.toNat ∧
      uint32_to_int (rpl_read_neighbor_num s) = s.last_entry := by
  have h64 : ((TABLE_ENTRIES : Nat) : Int) = 64 := rfl
  have hlo := h.lo
  have hhi := h.hi
  have h1 : rpl_read_neighbor_num s = s.last_entry.toNat := by
    unfold rpl_read_neighbor_num int_to_uint32; omega
  refine ⟨h1, ?_⟩
  rw [h1, uint32_to_int_of_nat _ (by omega)]
  omega

/-- `rpl_check_dis_attackers` completes, keeps the invariant and `last_entry`, and sets
`dis_attacker` in exactly the populated entries whose DIS count, as a float, exceeds the
threshold. -/
theorem check_dis_spec {s : State} (h : Inv s) :
    ∃ s1, rpl_check_dis_attackers s = some s1 ∧ Inv s1 ∧ s1.last_entry = s.last_entry ∧
      ∀ j, s1.rpl_stats[j]? = (s.rpl_stats[j]?).map (fun e =>
        if j < s.last_entry.toNat ∧ uint32_to_float e.dis_count > DIS_THRESHOLD then
          { e with dis_attacker := true } else e) := by
  have hk : keeps_counts (fun e => { e with dis_attacker := true }) := by
    intro e; exact ⟨rfl, rfl, rfl, rfl⟩
  obtain ⟨s1, hs1, hinv, hlast, hget⟩ := flag_loop_spec rpl_messages_e.DIS
    (fun c => decide (uint32_to_float c > DIS_THRESHOLD)) _ hk s.last_entry.toNat 0 s h (by omega)
  refine ⟨s1, ?_, hinv, hlast, ?_⟩
  · unfold rpl_check_dis_attackers
    rw [(neighbors_eq h).2, check_dis_loop_eq_flag_loop]
    exact hs1
  · intro j
    rw [hget j]
    congr 1
    funext e
    simp only [Nat.zero_le, true_and, zero_add, decide_eq_true_eq, count_of]

theorem dio_sum_loop_total {F : Type} (fm : FloatModel F) {s : State} (h : Inv s) :
    ∀ (remaining i : Nat) (avg : F), i + remaining ≤ s.last_entry.toNat →
      ∃ r, dio_sum_loop fm s remaining i avg = some r := by
  have h64 : ((TABLE_ENTRIES : Nat) : Int) = 64 := rfl
  intro remaining
  induction remaining with
  | zero => intro i avg _; exact ⟨avg, rfl⟩
  | succ n ih =>
    intro i avg hin
    have hi : i < s.last_entry.toNat := by omega
    have hhi := h.hi
    obtain ⟨e, he⟩ := h.exists_entry hi
    have hread : rpl_read_stat_count_index s (to_size_t i) rpl_messages_e.DIO = some (count_of rpl_messages_e.DIO e) := by
      rw [to_size_t_of_nat i (by omega)]
      exact read_index_lt s i rpl_messages_e.DIO h.lo h.hi hi e he (h.entry_u32_of_getElem? he)
    rw [dio_sum_loop, hread]
    exact ih (i + 1) _ (by omega)

theorem dio_pow_loop_total {F : Type} (fm : FloatModel F) {s : State} (h : Inv s) (avg : F) :
    ∀ (remaining i : Nat) (temp : F), i + remaining ≤ s.last_entry.toNat →
      ∃ r, dio_pow_loop fm s avg remaining i temp = some r := by
  have h64 : ((TABLE_ENTRIES : Nat) : Int) = 64 := rfl
  intro remaining
  induction remaining with
  | zero => intro i temp _; exact ⟨temp, rfl⟩
  | succ n ih =>
    intro i temp hin
    have hi : i < s.last_entry.toNat := by omega
    have hhi := h.hi
    obtain ⟨e, he⟩ := h.exists_entry hi
    have hread : rpl_read_stat_count_index s (to_size_t i) rpl_messages_e.DIO = some (count_of rpl_messages_e.DIO e) := by
      rw [to_size_t_of_nat i (by omega)]
      exact read_index_lt s i rpl_messages_e.DIO h.lo h.hi hi e he (h.entry_u32_of_getElem? he)
    rw [dio_pow_loop, hread]
    exact ih (i + 1) _ (by omega)

/-- `rpl_check_dio_attackers` completes under every interpretation of the float
operations, keeps the invariant and `last_entry`, and sets `dio_attacker` in exactly the
populated entries whose DIO count, as a float, compares greater than the computed limit. -/
theorem check_dio_spec {F : Type} (fm : FloatModel F) {s : State} (h : Inv s) :
    ∃ s1, rpl_check_dio_attackers fm s = some s1 ∧ Inv s1 ∧ s1.last_entry = s.last_entry ∧
      ∃ limit : F, ∀ j, s1.rpl_stats[j]? = (s.rpl_stats[j]?).map (fun e =>
        if j < s.last_entry.toNat ∧ fm.gt (fm.of_uint32 e.dio_count) limit = true then
          { e with dio_attacker := true } else e) := by
  have hk : keeps_counts (fun e => { e with dio_attacker := true }) := by
    intro e; exact ⟨rfl, rfl, rfl, rfl⟩
  obtain ⟨sum, hsum⟩ := dio_sum_loop_total fm h s.last_entry.toNat 0 fm.zero (by omega)
  obtain ⟨temp, htemp⟩ := dio_pow_loop_total fm h (fm.div sum (fm.of_int s.last_entry))
    s.last_entry.toNat 0 fm.zero (by omega)
  unfold rpl_check_dio_attackers
  simp only [(neighbors_eq h).2, hsum, htemp, dio_flag_loop_eq_flag_loop]
  obtain ⟨s1, hs1, hinv, hlast, hget⟩ := flag_loop_spec rpl_messages_e.DIO
    (fun c => fm.gt (fm.of_uint32 c) (fm.add (fm.div sum (fm.of_int s.last_entry))
      (fm.mul (fm.quartic (fm.powf (fm.of_int s.last_entry) (fm.of_int 4))
        (fm.powf (fm.of_int s.last_entry) (fm.of_int 3))
        (fm.powf (fm.of_int s.last_entry) (fm.of_int 2)) s.last_entry)
        (fm.sqrtf (fm.div temp (fm.of_int s.last_entry))))))
    _ hk s.last_entry.toNat 0 s h (by omega)
  refine ⟨s1, hs1, hinv, hlast, dio_threshold fm s.last_entry sum temp, ?_⟩
  intro j
  rw [hget j]
  congr 1
  funext e
  simp only [Nat.zero_le, true_and, zero_add, count_of, dio_threshold]

/-- Every reachable state satisfies the invariant. -/
theorem reachable_inv {s : State} (h : Reachable s) : Inv s := by
  induction h with
  | init => exact inv_init
  | record a k _ hr ih => exact record_inv_of_eq ih hr
  | reset _ _ => exact inv_reset _
  | check_dio fm _ hr ih =>
    obtain ⟨s2, h2, hinv, _⟩ := check_dio_spec fm ih
    rw [hr] at h2
    rw [Option.some.inj h2]
    exact hinv
  | check_dis _ hr ih =>
    obtain ⟨s2, h2, hinv, _⟩ := check_dis_spec ih
    rw [hr] at h2
    rw [Option.some.inj h2]
    exact hinv

/-- An update that rewrites entries pointwise without touching addresses and counters
changes neither the populated addresses nor the answer of any query by address. -/
theorem read_ip_of_pointwise {s s1 : State} (h : Inv s) (h1 : Inv s1)
    (hlast : s1.last_entry = s.last_entry) (g : Nat → rpl_stats_entry → rpl_stats_entry)
    (hg : ∀ j, keeps_counts (g j))
    (hget : ∀ j, s1.rpl_stats[j]? = (s.rpl_stats[j]?).map (g j)) :
    addrs s1 = addrs s ∧
      ∀ b k, rpl_read_stat_count_ip s1 b k = rpl_read_stat_count_ip s b k := by
  have hadd : addrs s1 = addrs s := by
    apply List.ext_getElem?
    intro j
    simp only [addrs, List.getElem?_map, List.getElem?_take, hlast, hget j]
    split
    · cases s.rpl_stats[j]? with
      | none => rfl
      | some e => simp [(hg j e).1]
    · rfl
  refine ⟨hadd, ?_⟩
  intro b k
  rcases read_ip_cases h b k with ⟨hb, e, he, _, _, hread⟩ | ⟨hb, hread⟩
  · rw [hread]
    have he1 : s1.rpl_stats[List.indexOf b (addrs s1)]? =
        some (g (List.indexOf b (addrs s)) e) := by
      rw [hadd, hget, he]; rfl
    rw [read_ip_mem s1 b k h1.len h1.hi (by rw [hadd]; exact hb) _ he1
      (h1.entry_u32_of_getElem? he1)]
    rw [keeps_counts_count_of (hg _) k e]
  · rw [hread]
    exact read_ip_not_mem s1 b k h1.len h1.hi (by rw [hadd]; exact hb)

/-! ### Concrete reachable states -/

theorem reachable_record_all (l : List (uip_ipaddr_t × rpl_messages_e)) :
    ∀ {s s1 : State}, Reachable s → record_all s l = some s1 → Reachable s1 := by
  induction l with
  | nil =>
    intro s s1 hs hr
    simp only [record_all] at hr
    exact Option.some.inj hr ▸ hs
  | cons p l ih =>
    intro s s1 hs hr
    obtain ⟨a, k⟩ := p
    simp only [record_all] at hr
    cases hq : rpl_increment_stat_count s a k with
    | none => rw [hq] at hr; exact Option.noConfusion hr
    | some s2 =>
      rw [hq] at hr
      exact ih (Reachable.record a k hs hq) hr

theorem record_single_state (c : Nat) :
    rpl_increment_stat_count (single_state c) 1 rpl_messages_e.DIO = some (single_state ((c + 1) % 2 ^ 32)) := by
  rfl

theorem record_all_single_state (n : Nat) : ∀ c : Nat, c + n < 2 ^ 32 →
    record_all (single_state c) (List.replicate n (1, rpl_messages_e.DIO)) = some (single_state (c + n)) := by
  induction n with
  | zero => intro c _; rfl
  | succ n ih =>
    intro c hc
    rw [List.replicate_succ, record_all, record_single_state]
    simp only
    rw [Nat.mod_eq_of_lt (by omega), ih (c + 1) (by omega)]
    congr 2
    omega

/-- The table with one record whose DIO counter is `c` is reached by `c` DIO messages
from the address `1`. -/
theorem reachable_single_state (c : Nat) (h0 : 0 < c) (hc : c < 2 ^ 32) :
    Reachable (single_state c) := by
  have h1 : rpl_increment_stat_count init_state 1 rpl_messages_e.DIO = some (single_state 1) := by decide
  have h2 := record_all_single_state (c - 1) 1 (by omega)
  have h3 : 1 + (c - 1) = c := by omega
  rw [h3] at h2
  exact reachable_record_all _ (Reachable.record 1 rpl_messages_e.DIO Reachable.init h1) h2

theorem reachable_dis_example_state : Reachable dis_example_state := by
  have h : record_all init_state dis_example_calls = some dis_example_state := by decide
  exact reachable_record_all _ Reachable.init h

/-! ### Claims C2 to C10 -/

theorem read_index_congr {s s1 : State} (hlast : s1.last_entry = s.last_entry) (i : Nat)
    (hget : s1.rpl_stats[i]? = s.rpl_stats[i]?) (k : rpl_messages_e) :
    rpl_read_stat_count_index s1 i k = rpl_read_stat_count_index s i k := by
  have hr : ∀ tbl : List rpl_stats_entry,
      read_entry tbl (i : Int) = if i < TABLE_ENTRIES then tbl[i]? else none := fun _ => rfl
  unfold rpl_read_stat_count_index
  rw [hlast, hr, hr, hget]

/-- Claim C2 (counterexample). The table with the single record of address `1` whose DIO
counter is `4294967295` is reachable, the address is present, and recording one more DIO
message for it makes the query by address return `0`, which is not one greater. -/
theorem C2_counterexample_wraps_to_zero :
    Reachable (single_state 4294967295) ∧
    (1 : uip_ipaddr_t) ∈ addrs (single_state 4294967295) ∧
    rpl_read_stat_count_ip (single_state 4294967295) 1 rpl_messages_e.DIO = some 4294967295 ∧
    (rpl_increment_stat_count (single_state 4294967295) 1 rpl_messages_e.DIO).bind
      (fun s1 => rpl_read_stat_count_ip s1 1 rpl_messages_e.DIO) = some 0 := by
  refine ⟨reachable_single_state _ (by norm_num) (by norm_num), by decide, by decide, by decide⟩

/-- Claim C2 (amended). In every reachable state, for every address `a` already present
and every kind `k`, `rpl_increment_stat_count s a k` completes and: `rpl_read_neighbor_num`
is unchanged; the query by address for `(a, k)` returns the previous value plus one modulo
`2 ^ 32` (one greater, except that `4294967295` wraps to `0`); the queries for the two
other kinds of `a` and for every kind of every other address are unchanged; and every query
by index at an index other than the position of `a` is unchanged. -/
theorem C2_record_present_increments_mod (s : State) (hs : Reachable s) (a : uip_ipaddr_t)
    (ha : a ∈ addrs s) (k : rpl_messages_e) :
    ∃ s1, rpl_increment_stat_count s a k = some s1 ∧
      rpl_read_neighbor_num s1 = rpl_read_neighbor_num s ∧
      (∃ v, rpl_read_stat_count_ip s a k = some v ∧
        rpl_read_stat_count_ip s1 a k = some ((v + 1) % 2 ^ 32)) ∧
      (∀ k1, k1 ≠ k → rpl_read_stat_count_ip s1 a k1 = rpl_read_stat_count_ip s a k1) ∧
      (∀ b, b ≠ a → ∀ k1, rpl_read_stat_count_ip s1 b k1 = rpl_read_stat_count_ip s b k1) ∧
      (∀ i : Nat, search_ip s a ≠ some (i : Int) → ∀ k1,
        rpl_read_stat_count_index s1 i k1 = rpl_read_stat_count_index s i k1) := by
  have h := reachable_inv hs
  obtain ⟨s1, hr, h1⟩ := record_inv h a k
  have hlast := (record_addrs h hr).2
  rw [if_pos (Or.inl ha)] at hlast
  refine ⟨s1, hr, by unfold rpl_read_neighbor_num; rw [hlast], ?_, ?_, ?_, ?_⟩
  · obtain ⟨v, hv, _, hv1⟩ := record_read_ip h hr a k
    rw [if_pos ⟨Or.inl ha, rfl, rfl⟩] at hv1
    exact ⟨v, hv, hv1⟩
  · intro k1 hk
    obtain ⟨v, hv, _, hv1⟩ := record_read_ip h hr a k1
    rw [if_neg (fun hc => hk hc.2.2)] at hv1
    rw [hv, hv1]
  · intro b hb k1
    obtain ⟨v, hv, _, hv1⟩ := record_read_ip h hr b k1
    rw [if_neg (fun hc => hb hc.2.1)] at hv1
    rw [hv, hv1]
  · intro i hi k1
    rcases record_cases h a k with ⟨_, e, he, _, hlt, hr1⟩ | ⟨ha1, _, _⟩ | ⟨ha1, _, _⟩
    · rw [hr] at hr1
      have hne : ¬ List.indexOf a (addrs s) = i := by
        intro hc
        apply hi
        rw [search_ip_eq s a h.len h.hi, if_pos ha, hc]
      apply read_index_congr hlast
      rw [Option.some.inj hr1]
      simp only [found_state, List.getElem?_set, hne, if_false]
    · exact absurd ha ha1
    · exact absurd ha ha1

/-- Claim C2 (witness). The amended statement at the reachable table with records for the
addresses `10`, `11`, `12`, recording a DIS message for the present address `11`. -/
theorem C2_witness :
    Reachable dis_example_state ∧ (11 : uip_ipaddr_t) ∈ addrs dis_example_state ∧
    ∃ s1, rpl_increment_stat_count dis_example_state 11 rpl_messages_e.DIS = some s1 ∧
      rpl_read_neighbor_num s1 = rpl_read_neighbor_num dis_example_state ∧
      (∃ v, rpl_read_stat_count_ip dis_example_state 11 rpl_messages_e.DIS = some v ∧
        rpl_read_stat_count_ip s1 11 rpl_messages_e.DIS = some ((v + 1) % 2 ^ 32)) ∧
      (∀ k1, k1 ≠ rpl_messages_e.DIS →
        rpl_read_stat_count_ip s1 11 k1 = rpl_read_stat_count_ip dis_example_state 11 k1) ∧
      (∀ b, b ≠ 11 → ∀ k1,
        rpl_read_stat_count_ip s1 b k1 = rpl_read_stat_count_ip dis_example_state b k1) ∧
      (∀ i : Nat, search_ip dis_example_state 11 ≠ some (i : Int) → ∀ k1,
        rpl_read_stat_count_index s1 i k1 = rpl_read_stat_count_index dis_example_state i k1) :=
  ⟨reachable_dis_example_state, by decide,
    C2_record_present_increments_mod dis_example_state reachable_dis_example_state 11
      (by decide) rpl_messages_e.DIS⟩

/-- Claim C3. For every table (an array of `TABLE_ENTRIES` slots) with `last_entry == 64`
and every address `a` not among the populated ones, `rpl_increment_stat_count s a k`
completes and returns the very same state for every kind `k`; `rpl_read_neighbor_num` is
still `64` and the query by address for `a` returns `0` for every kind afterwards. -/
theorem C3_record_full_is_noop (s : State) (hlen : s.rpl_stats.length = TABLE_ENTRIES)
    (hfull : s.last_entry = TABLE_ENTRIES) (a : uip_ipaddr_t) (ha : a ∉ addrs s)
    (k : rpl_messages_e) :
    ∃ s1, rpl_increment_stat_count s a k = some s1 ∧ s1 = s ∧
      rpl_read_neighbor_num s1 = 64 ∧
      ∀ k1, rpl_read_stat_count_ip s1 a k1 = some 0 := by
  refine ⟨s, record_absent_full s a k hlen (le_of_eq hfull) ha (le_of_eq hfull.symm), rfl, ?_, ?_⟩
  · unfold rpl_read_neighbor_num
    rw [hfull]
    decide
  · intro k1
    exact read_ip_not_mem s a k1 hlen (le_of_eq hfull) ha

/-- Claim C3 (witness). The statement at the full table holding the addresses `1` to `64`
and the new address `100`. -/
theorem C3_witness :
    full_state.rpl_stats.length = TABLE_ENTRIES ∧ full_state.last_entry = TABLE_ENTRIES ∧
    (100 : uip_ipaddr_t) ∉ addrs full_state ∧
    ∃ s1, rpl_increment_stat_count full_state 100 rpl_messages_e.DAO = some s1 ∧ s1 = full_state ∧
      rpl_read_neighbor_num s1 = 64 ∧
      ∀ k1, rpl_read_stat_count_ip s1 100 k1 = some 0 :=
  ⟨by decide, by decide, by decide,
    C3_record_full_is_noop full_state (by decide) (by decide) 100 (by decide) rpl_messages_e.DAO⟩

/-! ### C4 -/

/-- After a run in which the table never overflows, the query by address returns the
previous value plus the number of calls for that address and kind, modulo `2 ^ 32`. -/
theorem record_all_read_ip (a : uip_ipaddr_t) (k : rpl_messages_e)
    (l : List (uip_ipaddr_t × rpl_messages_e)) :
    ∀ {s : State}, Inv s →
      ((addrs s).toFinset ∪ (l.map Prod.fst).toFinset).card ≤ TABLE_ENTRIES →
      ∃ s1 v, record_all s l = some s1 ∧ rpl_read_stat_count_ip s a k = some v ∧
        rpl_read_stat_count_ip s1 a k = some ((v + l.count (a, k)) % 2 ^ 32) := by
  have h64 : ((TABLE_ENTRIES : Nat) : Int) = 64 := rfl
  induction l with
  | nil =>
    intro s h _
    obtain ⟨s1, hr, _⟩ := record_inv h a k
    obtain ⟨v, hv, hv2, _⟩ := record_read_ip h hr a k
    refine ⟨s, v, rfl, hv, ?_⟩
    rw [hv, List.count_nil, Nat.add_zero, Nat.mod_eq_of_lt hv2]
  | cons p l ih =>
    intro s h hcard
    obtain ⟨a1, k1⟩ := p
    obtain ⟨s1, hr, h1⟩ := record_inv h a1 k1
    obtain ⟨hadd, _⟩ := record_addrs h hr
    obtain ⟨v, hv, hv2, hv1⟩ := record_read_ip h hr a k
    simp only [List.map_cons, List.toFinset_cons] at hcard
    -- the call is not dropped
    have hroom : a1 ∈ addrs s ∨ s.last_entry < TABLE_ENTRIES := by
      by_cases ha1 : a1 ∈ addrs s
      · exact Or.inl ha1
      · right
        have hsub : insert a1 (addrs s).toFinset ⊆
            (addrs s).toFinset ∪ insert a1 (l.map Prod.fst).toFinset := by
          intro x hx
          simp only [Finset.mem_insert, List.mem_toFinset] at hx
          simp only [Finset.mem_union, Finset.mem_insert, List.mem_toFinset]
          tauto
        have hc1 := Finset.card_le_card hsub
        rw [Finset.card_insert_of_not_mem (by simpa using ha1), addrs_card h] at hc1
        have := h.lo
        omega
    have hadd1 : (addrs s1).toFinset ∪ (l.map Prod.fst).toFinset ⊆
        (addrs s).toFinset ∪ insert a1 (l.map Prod.fst).toFinset := by
      intro x hx
      rw [hadd] at hx
      simp only [Finset.mem_union, Finset.mem_insert, List.mem_toFinset] at hx ⊢
      split at hx
      · tauto
      · simp only [List.mem_append, List.mem_singleton] at hx
        tauto
    obtain ⟨s2, w, hr2, hw, hw2⟩ := ih h1 (le_trans (Finset.card_le_card hadd1) hcard)
    refine ⟨s2, v, by simp only [record_all, hr]; exact hr2, hv, ?_⟩
    rw [hw2]
    rw [hw] at hv1
    rw [Option.some.inj hv1, List.count_cons]
    congr 1
    by_cases hc : a = a1 ∧ k = k1
    · obtain ⟨rfl, rfl⟩ := hc
      simp only [hroom, true_and, and_self, if_true, beq_self_eq_true]
      omega
    · have hb : ((a1, k1) == (a, k)) = false := by
        rw [beq_eq_false_iff_ne]
        intro he
        exact hc ⟨(Prod.mk.inj he).1.symm, (Prod.mk.inj he).2.symm⟩
      have hn : ¬ ((a1 ∈ addrs s ∨ s.last_entry < TABLE_ENTRIES) ∧ a = a1 ∧ k = k1) :=
        fun hx => hc hx.2
      rw [if_neg hn, hb]
      simp

/-- Claim C4. For every sequence of `rpl_increment_stat_count` calls applied to the start
state in which at most `TABLE_ENTRIES` (64) distinct addresses occur, and every address
`a` and kind `k` for which the number of calls with `(a, k)` is below `2 ^ 32`, the run
completes and the query by address for `(a, k)` returns that number of calls; this is
`0` for an address that never occurs. -/
theorem C4_count_by_address_counts_calls (l : List (uip_ipaddr_t × rpl_messages_e))
    (hd : (l.map Prod.fst).toFinset.card ≤ TABLE_ENTRIES) (a : uip_ipaddr_t)
    (k : rpl_messages_e) (hn : l.count (a, k) < 2 ^ 32) :
    ∃ s, record_all init_state l = some s ∧
      rpl_read_stat_count_ip s a k = some (l.count (a, k)) := by
  have h0 : addrs init_state = [] := by simp [addrs, init_state]
  obtain ⟨s1, v, hr, hv, hv1⟩ := record_all_read_ip a k l inv_init (by
    rw [h0]; simpa using hd)
  have hz := read_ip_not_mem init_state a k inv_init.len inv_init.hi (by rw [h0]; simp)
  rw [hz] at hv
  rw [← Option.some.inj hv, Nat.zero_add, Nat.mod_eq_of_lt hn] at hv1
  exact ⟨s1, hr, hv1⟩

/-- Claim C4 (witness). The statement at the calls that build the three-record example
table, for the address `10` and the kind DIS (four calls). -/
theorem C4_witness :
    (dis_example_calls.map Prod.fst).toFinset.card ≤ TABLE_ENTRIES ∧
    dis_example_calls.count (10, rpl_messages_e.DIS) < 2 ^ 32 ∧
    ∃ s, record_all init_state dis_example_calls = some s ∧
      rpl_read_stat_count_ip s 10 rpl_messages_e.DIS = some (dis_example_calls.count (10, rpl_messages_e.DIS)) :=
  ⟨by decide, by decide,
    C4_count_by_address_counts_calls dis_example_calls (by decide) 10 rpl_messages_e.DIS (by decide)⟩

theorem keeps_counts_ite (c : rpl_stats_entry → Prop) [DecidablePred c]
    (f : rpl_stats_entry → rpl_stats_entry) (hf : keeps_counts f) :
    keeps_counts (fun e => if c e then f e else e) := by
  intro e
  show (if c e then f e else e).addr = e.addr ∧ (if c e then f e else e).dio_count = e.dio_count ∧
    (if c e then f e else e).dao_count = e.dao_count ∧
    (if c e then f e else e).dis_count = e.dis_count
  by_cases hc : c e
  · rw [if_pos hc]; exact hf e
  · rw [if_neg hc]; exact ⟨rfl, rfl, rfl, rfl⟩

/-- Claim C5. For every table state, after `rpl_reset_stats` the array again has
`TABLE_ENTRIES` slots, `rpl_read_neighbor_num` is `0`, the query by address and the query
by index return `0` for every address, index and kind, and both attacker flags of every
slot are false. -/
theorem C5_reset_zeroes_everything (s : State) :
    (rpl_reset_stats s).rpl_stats.length = TABLE_ENTRIES ∧
    rpl_read_neighbor_num (rpl_reset_stats s) = 0 ∧
    (∀ a k, rpl_read_stat_count_ip (rpl_reset_stats s) a k = some 0) ∧
    (∀ i k, rpl_read_stat_count_index (rpl_reset_stats s) i k = some 0) ∧
    (∀ e ∈ (rpl_reset_stats s).rpl_stats, e.dio_attacker = false ∧ e.dis_attacker = false) := by
  have h := inv_reset s
  refine ⟨h.len, int_to_uint32_zero, ?_, ?_, ?_⟩
  · intro a k
    exact read_ip_not_mem _ a k h.len h.hi (by simp [addrs, rpl_reset_stats])
  · intro i k
    exact read_index_ge _ i k h.lo h.hi (by simp [rpl_reset_stats])
  · intro e he
    simp only [rpl_reset_stats] at he
    rw [List.eq_of_mem_replicate he]
    exact ⟨rfl, rfl⟩

/-- Claim C6. In every reachable state, for every kind `k` and every index `i`:
if `i ≥ rpl_read_neighbor_num()` then `rpl_read_stat_count_index(i, k)` returns `0`, which
includes the `size_t` image of every negative 64-bit integer; and if
`i < rpl_read_neighbor_num()` then slot `i` holds a record and the function returns its
counter of kind `k`. -/
theorem C6_count_by_index (s : State) (hs : Reachable s) (k : rpl_messages_e) (i : Nat) :
    (i ≥ rpl_read_neighbor_num s → rpl_read_stat_count_index s i k = some 0) ∧
    (∀ x : Int, x < 0 → -(2 ^ 63) ≤ x →
      rpl_read_stat_count_index s (to_size_t x) k = some 0) ∧
    (i < rpl_read_neighbor_num s →
      ∃ e, s.rpl_stats[i]? = some e ∧ rpl_read_stat_count_index s i k = some (count_of k e)) := by
  have h := reachable_inv hs
  have h64 : ((TABLE_ENTRIES : Nat) : Int) = 64 := rfl
  have hn := (neighbors_eq h).1
  have hhi := h.hi
  refine ⟨?_, ?_, ?_⟩
  · intro hi
    exact read_index_ge s i k h.lo h.hi (by omega)
  · intro x hx0 hx1
    refine read_index_ge s _ k h.lo h.hi ?_
    unfold to_size_t
    omega
  · intro hi
    have hi1 : i < s.last_entry.toNat := by omega
    obtain ⟨e, he⟩ := h.exists_entry hi1
    exact ⟨e, he, read_index_lt s i k h.lo h.hi hi1 e he (h.entry_u32_of_getElem? he)⟩

/-- Claim C6 (witness). The statement at the three-record example table, kind DIS and
index `0`, whose record has the DIS count `4`. -/
theorem C6_witness :
    Reachable dis_example_state ∧
    (0 ≥ rpl_read_neighbor_num dis_example_state →
      rpl_read_stat_count_index dis_example_state 0 rpl_messages_e.DIS = some 0) ∧
    (∀ x : Int, x < 0 → -(2 ^ 63) ≤ x →
      rpl_read_stat_count_index dis_example_state (to_size_t x) rpl_messages_e.DIS = some 0) ∧
    (0 < rpl_read_neighbor_num dis_example_state →
      ∃ e, dis_example_state.rpl_stats[0]? = some e ∧
        rpl_read_stat_count_index dis_example_state 0 rpl_messages_e.DIS = some (count_of rpl_messages_e.DIS e)) :=
  ⟨reachable_dis_example_state,
    C6_count_by_index dis_example_state reachable_dis_example_state rpl_messages_e.DIS 0⟩

/-- Claim C7 (counterexample). The table with the single record of address `1` whose DIO
counter is `4294967295` is reachable, and one more DIO message from that address, which
is not a reset, takes the value of the query by address from `4294967295` down to `0`. -/
theorem C7_counterexample_counter_decreases :
    Reachable (single_state 4294967295) ∧
    ∃ s1 v v1, rpl_increment_stat_count (single_state 4294967295) 1 rpl_messages_e.DIO = some s1 ∧
      rpl_read_stat_count_ip (single_state 4294967295) 1 rpl_messages_e.DIO = some v ∧
      rpl_read_stat_count_ip s1 1 rpl_messages_e.DIO = some v1 ∧ v1 < v := by
  refine ⟨reachable_single_state _ (by norm_num) (by norm_num),
    single_state 0, 4294967295, 0, by decide, by decide, by decide, by decide⟩

/-- Claim C7 (amended). In every reachable state the query by address for `(a, k)` returns
a value `v`, and for every operation other than reset its value afterwards is at least
`v`, with one exception: a call of `rpl_increment_stat_count` for the same address and
kind when `v = 4294967295`, after which the value is `0`. Both detectors leave the value
unchanged; the query functions return a value and leave the state as it is. -/
theorem C7_counters_monotone_up_to_wrap (s : State) (hs : Reachable s) (a : uip_ipaddr_t)
    (k : rpl_messages_e) :
    ∃ v, rpl_read_stat_count_ip s a k = some v ∧
      (∀ a1 k1, ∃ s1 v1, rpl_increment_stat_count s a1 k1 = some s1 ∧
        rpl_read_stat_count_ip s1 a k = some v1 ∧
        (¬ (a1 = a ∧ k1 = k ∧ v = 4294967295) → v ≤ v1) ∧
        (a1 = a ∧ k1 = k ∧ v = 4294967295 → v1 = 0)) ∧
      (∀ (F : Type) (fm : FloatModel F), ∃ s1, rpl_check_dio_attackers fm s = some s1 ∧
        rpl_read_stat_count_ip s1 a k = some v) ∧
      (∃ s1, rpl_check_dis_attackers s = some s1 ∧ rpl_read_stat_count_ip s1 a k = some v) := by
  have h := reachable_inv hs
  have h64 : ((TABLE_ENTRIES : Nat) : Int) = 64 := rfl
  have hv : ∃ v, rpl_read_stat_count_ip s a k = some v := by
    rcases read_ip_cases h a k with ⟨_, _, _, _, _, hread⟩ | ⟨_, hread⟩
    · exact ⟨_, hread⟩
    · exact ⟨_, hread⟩
  obtain ⟨v, hv⟩ := hv
  refine ⟨v, hv, ?_, ?_, ?_⟩
  · intro a1 k1
    obtain ⟨s1, hr, _⟩ := record_inv h a1 k1
    obtain ⟨w, hw, hw2, hw1⟩ := record_read_ip h hr a k
    rw [hv] at hw
    have hwv : w = v := (Option.some.inj hw).symm
    subst hwv
    refine ⟨s1, _, hr, hw1, ?_, ?_⟩
    · intro hne
      split
      · next hc =>
        have : w ≠ 4294967295 := fun hx => hne ⟨hc.2.1.symm, hc.2.2.symm, hx⟩
        omega
      · exact le_refl _
    · rintro ⟨rfl, rfl, hmax⟩
      have hroom : a1 ∈ addrs s ∨ s.last_entry < TABLE_ENTRIES := by
        by_cases ha1 : a1 ∈ addrs s
        · exact Or.inl ha1
        · rw [read_ip_not_mem s a1 k1 h.len h.hi ha1] at hv
          have := Option.some.inj hv
          omega
      rw [if_pos ⟨hroom, rfl, rfl⟩, hmax]
      norm_num
  · intro F fm
    obtain ⟨s1, hr, h1, hlast, limit, hget⟩ := check_dio_spec fm h
    refine ⟨s1, hr, ?_⟩
    have hk : ∀ j, keeps_counts (fun e : rpl_stats_entry =>
        if j < s.last_entry.toNat ∧ fm.gt (fm.of_uint32 e.dio_count) limit = true then
          { e with dio_attacker := true } else e) := by
      intro j
      exact keeps_counts_ite _ _ (fun e => ⟨rfl, rfl, rfl, rfl⟩)
    rw [(read_ip_of_pointwise h h1 hlast _ hk hget).2 a k, hv]
  · obtain ⟨s1, hr, h1, hlast, hget⟩ := check_dis_spec h
    refine ⟨s1, hr, ?_⟩
    have hk : ∀ j, keeps_counts (fun e : rpl_stats_entry =>
        if j < s.last_entry.toNat ∧ uint32_to_float e.dis_count > DIS_THRESHOLD then
          { e with dis_attacker := true } else e) := by
      intro j
      exact keeps_counts_ite _ _ (fun e => ⟨rfl, rfl, rfl, rfl⟩)
    rw [(read_ip_of_pointwise h h1 hlast _ hk hget).2 a k, hv]

/-- Claim C7 (witness). The amended statement at the three-record example table, for the
address `12` and the kind DIS. -/
theorem C7_witness :
    Reachable dis_example_state ∧
    ∃ v, rpl_read_stat_count_ip dis_example_state 12 rpl_messages_e.DIS = some v ∧
      (∀ a1 k1, ∃ s1 v1, rpl_increment_stat_count dis_example_state a1 k1 = some s1 ∧
        rpl_read_stat_count_ip s1 12 rpl_messages_e.DIS = some v1 ∧
        (¬ (a1 = 12 ∧ k1 = rpl_messages_e.DIS ∧ v = 4294967295) → v ≤ v1) ∧
        (a1 = 12 ∧ k1 = rpl_messages_e.DIS ∧ v = 4294967295 → v1 = 0)) ∧
      (∀ (F : Type) (fm : FloatModel F),
        ∃ s1, rpl_check_dio_attackers fm dis_example_state = some s1 ∧
          rpl_read_stat_count_ip s1 12 rpl_messages_e.DIS = some v) ∧
      (∃ s1, rpl_check_dis_attackers dis_example_state = some s1 ∧
        rpl_read_stat_count_ip s1 12 rpl_messages_e.DIS = some v) :=
  ⟨reachable_dis_example_state,
    C7_counters_monotone_up_to_wrap dis_example_state reachable_dis_example_state 12 rpl_messages_e.DIS⟩

/-- Claim C8. In every state reachable from the start state by calls of
`rpl_increment_stat_count`, `rpl_reset_stats` and the two detectors (queries do not change
the state), the addresses stored at the indices `[0, last_entry)` are pairwise distinct. -/
theorem C8_populated_addresses_distinct (s : State) (hs : Reachable s) :
    (addrs s).Nodup ∧
    ∀ (i j : Nat) (e1 e2 : rpl_stats_entry), i < s.last_entry.toNat → j < s.last_entry.toNat →
      s.rpl_stats[i]? = some e1 → s.rpl_stats[j]? = some e2 → e1.addr = e2.addr → i = j := by
  have h := reachable_inv hs
  refine ⟨h.nodup, ?_⟩
  intro i j e1 e2 hi hj he1 he2 hadd
  have h1 := (indexOf_addr_of_getElem? h hi he1).2
  have h2 := (indexOf_addr_of_getElem? h hj he2).2
  rw [hadd] at h1
  omega

/-- Claim C8 (witness). The statement at the three-record example table. -/
theorem C8_witness :
    Reachable dis_example_state ∧ (addrs dis_example_state).Nodup ∧
    ∀ (i j : Nat) (e1 e2 : rpl_stats_entry), i < dis_example_state.last_entry.toNat →
      j < dis_example_state.last_entry.toNat →
      dis_example_state.rpl_stats[i]? = some e1 → dis_example_state.rpl_stats[j]? = some e2 →
      e1.addr = e2.addr → i = j :=
  ⟨reachable_dis_example_state,
    C8_populated_addresses_distinct dis_example_state reachable_dis_example_state⟩

/-- Claim C9. In every reachable state `0 ≤ last_entry ≤ TABLE_ENTRIES` (64), and for every
address and kind `rpl_increment_stat_count` completes without an out-of-bounds access,
the slot it writes, if any, being at an index in `[0, TABLE_ENTRIES)`. -/
theorem C9_last_entry_bounded (s : State) (hs : Reachable s) :
    0 ≤ s.last_entry ∧ s.last_entry ≤ TABLE_ENTRIES ∧
    ∀ (a : uip_ipaddr_t) (k : rpl_messages_e),
      (∃ s1, rpl_increment_stat_count s a k = some s1) ∧
      ∀ idx, write_index s a = some idx → 0 ≤ idx ∧ idx < TABLE_ENTRIES := by
  have h := reachable_inv hs
  have h64 : ((TABLE_ENTRIES : Nat) : Int) = 64 := rfl
  refine ⟨h.lo, h.hi, ?_⟩
  intro a k
  obtain ⟨s1, hr, _⟩ := record_inv h a k
  refine ⟨⟨s1, hr⟩, ?_⟩
  intro idx hidx
  unfold write_index at hidx
  rw [search_ip_eq s a h.len h.hi] at hidx
  have hlo := h.lo
  by_cases ha : a ∈ addrs s
  · have hlt := (indexOf_addrs_spec s a h.len h.hi ha).1
    have hhi := h.hi
    rw [if_pos ha] at hidx
    simp only at hidx
    rw [if_neg (by omega)] at hidx
    have := Option.some.inj hidx
    omega
  · rw [if_neg ha] at hidx
    simp only at hidx
    rw [if_pos (by decide)] at hidx
    by_cases hfull : s.last_entry ≥ (TABLE_ENTRIES : Int)
    · rw [if_pos hfull] at hidx
      exact Option.noConfusion hidx
    · rw [if_neg hfull] at hidx
      have := Option.some.inj hidx
      omega

/-- Claim C9 (witness). The statement at the three-record example table. -/
theorem C9_witness :
    Reachable dis_example_state ∧
    0 ≤ dis_example_state.last_entry ∧ dis_example_state.last_entry ≤ TABLE_ENTRIES ∧
    ∀ (a : uip_ipaddr_t) (k : rpl_messages_e),
      (∃ s1, rpl_increment_stat_count dis_example_state a k = some s1) ∧
      ∀ idx, write_index dis_example_state a = some idx → 0 ≤ idx ∧ idx < TABLE_ENTRIES :=
  ⟨reachable_dis_example_state,
    C9_last_entry_bounded dis_example_state reachable_dis_example_state⟩

/-! ### C10 -/

/-- The conversion to `float` does not move a count across the threshold `3`. -/
theorem uint32_to_float_gt_threshold (c : Nat) :
    uint32_to_float c > DIS_THRESHOLD ↔ c > 3 := by
  unfold uint32_to_float
  by_cases hc : c < 2 ^ 24
  · rw [if_pos hc]
  · rw [if_neg hc]
    have hc1 : 2 ^ 24 ≤ c := by omega
    have hq : ∀ e : Nat, 1 ≤ e → e ≤ 8 → 3 < c / 2 ^ e * 2 ^ e := by
      intro e h1 h8
      have hp : 2 ^ e ≤ 2 ^ 8 := Nat.pow_le_pow_right (by norm_num) h8
      have hpos : 0 < 2 ^ e := Nat.pow_pos (by norm_num)
      have hmod := Nat.mod_lt c hpos
      have hdiv := Nat.div_add_mod c (2 ^ e)
      have : c / 2 ^ e * 2 ^ e = 2 ^ e * (c / 2 ^ e) := Nat.mul_comm _ _
      norm_num at hp hc1
      omega
    have he : 1 ≤ float_ulp_exp c ∧ float_ulp_exp c ≤ 8 := by
      unfold float_ulp_exp
      repeat' split
      all_goals omega
    have h3 := hq (float_ulp_exp c) he.1 he.2
    have hle : c / 2 ^ float_ulp_exp c * 2 ^ float_ulp_exp c ≤
        (c / 2 ^ float_ulp_exp c + 1) * 2 ^ float_ulp_exp c :=
      Nat.mul_le_mul_right _ (Nat.le_succ _)
    constructor
    · intro _; omega
    · intro _
      show DIS_THRESHOLD < _
      simp only
      split
      · exact h3
      · exact lt_of_lt_of_le h3 hle

/-- Claim C10. In every reachable state `rpl_check_dis_attackers` completes, and afterwards
each record `i` in `[0, last_entry)` has `dis_attacker == true` if and only if the flag
was already true before the call or its `dis_count` is strictly greater than 3, the
comparison being made on the count converted to `float`. In the example with the DIS
counts 4, 1 and 2 and no prior flag, only the first record is flagged. -/
theorem C10_dis_detector_flags_above_threshold (s : State) (hs : Reachable s) :
    (∃ s1, rpl_check_dis_attackers s = some s1 ∧ s1.last_entry = s.last_entry ∧
      ∀ i : Nat, i < s.last_entry.toNat →
        ∃ e e1, s.rpl_stats[i]? = some e ∧ s1.rpl_stats[i]? = some e1 ∧
          (e1.dis_attacker = true ↔ (e.dis_attacker = true ∨ e.dis_count > 3))) ∧
    (rpl_check_dis_attackers dis_example_state).map
      (fun s1 => (s1.rpl_stats.take 3).map (fun e => (e.addr, e.dis_count, e.dis_attacker))) =
      some [(10, 4, true), (11, 1, false), (12, 2, false)] := by
  have h := reachable_inv hs
  refine ⟨?_, by decide⟩
  obtain ⟨s1, hr, _, hlast, hget⟩ := check_dis_spec h
  refine ⟨s1, hr, hlast, ?_⟩
  intro i hi
  obtain ⟨e, he⟩ := h.exists_entry hi
  refine ⟨e, _, he, by rw [hget i, he]; rfl, ?_⟩
  simp only
  by_cases hc : uint32_to_float e.dis_count > DIS_THRESHOLD
  · rw [if_pos ⟨hi, hc⟩]
    have := (uint32_to_float_gt_threshold e.dis_count).mp hc
    simp [this]
  · rw [if_neg (fun hx => hc hx.2)]
    have : ¬ e.dis_count > 3 := fun hx => hc ((uint32_to_float_gt_threshold e.dis_count).mpr hx)
    simp [this]

/-- Claim C10 (witness). The statement at the three-record example table. -/
theorem C10_witness :
    Reachable dis_example_state ∧
    (∃ s1, rpl_check_dis_attackers dis_example_state = some s1 ∧
      s1.last_entry = dis_example_state.last_entry ∧
      ∀ i : Nat, i < dis_example_state.last_entry.toNat →
        ∃ e e1, dis_example_state.rpl_stats[i]? = some e ∧ s1.rpl_stats[i]? = some e1 ∧
          (e1.dis_attacker = true ↔ (e.dis_attacker = true ∨ e.dis_count > 3))) ∧
    (rpl_check_dis_attackers dis_example_state).map
      (fun s1 => (s1.rpl_stats.take 3).map (fun e => (e.addr, e.dis_count, e.dis_attacker))) =
      some [(10, 4, true), (11, 1, false), (12, 2, false)] :=
  ⟨reachable_dis_example_state,
    C10_dis_detector_flags_above_threshold dis_example_state reachable_dis_example_state⟩

/-! ### Claims C11, C14, C16, C17 and C19 -/

/-- After one call of `rpl_increment_stat_count` on a table satisfying the invariant,
every slot holds the same two attacker flags as before. -/
theorem record_flags {s s1 : State} (h : Inv s) {a : uip_ipaddr_t} {k : rpl_messages_e}
    (hr : rpl_increment_stat_count s a k = some s1) (i : Nat) (e : rpl_stats_entry)
    (he : s.rpl_stats[i]? = some e) :
    ∃ e1, s1.rpl_stats[i]? = some e1 ∧ e1.dio_attacker = e.dio_attacker ∧
      e1.dis_attacker = e.dis_attacker := by
  have hil : i < s.rpl_stats.length := by
    by_contra hc
    rw [List.getElem?_eq_none (by omega)] at he
    exact Option.noConfusion he
  rcases record_cases h a k with ⟨_, e0, he0, _, hlt, hr1⟩ | ⟨_, _, hr1⟩ | ⟨ha, hroom, hr1⟩
  · rw [hr] at hr1
    rw [Option.some.inj hr1]
    simp only [found_state, List.getElem?_set]
    by_cases hij : List.indexOf a (addrs s) = i
    · subst hij
      rw [he] at he0
      rw [if_pos rfl, if_pos hil, ← Option.some.inj he0]
      exact ⟨_, rfl, incr_count_dio_attacker k e, incr_count_dis_attacker k e⟩
    · rw [if_neg hij]
      exact ⟨e, he, rfl, rfl⟩
  · rw [hr] at hr1
    rw [Option.some.inj hr1]
    exact ⟨e, he, rfl, rfl⟩
  · rw [hr] at hr1
    rw [Option.some.inj hr1]
    simp only [appended_state, List.getElem?_set]
    by_cases hij : s.last_entry.toNat = i
    · have hz := h.zero i (by omega) (by have := h.len; omega)
      rw [he] at hz
      rw [if_pos hij, if_pos (by omega), Option.some.inj hz]
      refine ⟨_, rfl, ?_, ?_⟩
      · rw [incr_count_dio_attacker]
      · rw [incr_count_dis_attacker]
    · rw [if_neg hij]
      exact ⟨e, he, rfl, rfl⟩

/-- Claim C11. In every reachable state and for every slot of the table:
`rpl_increment_stat_count` completes and leaves both attacker flags of the slot exactly as
they were (it neither clears nor sets a flag); `rpl_check_dio_attackers`, under every
interpretation of the float operations, keeps a true `dio_attacker` true and leaves
`dis_attacker` as it was; `rpl_check_dis_attackers` keeps a true `dis_attacker` true and
leaves `dio_attacker` as it was. The query functions return a value and leave the state
as it is. -/
theorem C11_attacker_flags_persist (s : State) (hs : Reachable s) (i : Nat)
    (e : rpl_stats_entry) (he : s.rpl_stats[i]? = some e) :
    (∀ a k, ∃ s1 e1, rpl_increment_stat_count s a k = some s1 ∧ s1.rpl_stats[i]? = some e1 ∧
      e1.dio_attacker = e.dio_attacker ∧ e1.dis_attacker = e.dis_attacker) ∧
    (∀ (F : Type) (fm : FloatModel F), ∃ s1 e1, rpl_check_dio_attackers fm s = some s1 ∧
      s1.rpl_stats[i]? = some e1 ∧ (e.dio_attacker = true → e1.dio_attacker = true) ∧
      e1.dis_attacker = e.dis_attacker) ∧
    (∃ s1 e1, rpl_check_dis_attackers s = some s1 ∧ s1.rpl_stats[i]? = some e1 ∧
      (e.dis_attacker = true → e1.dis_attacker = true) ∧
      e1.dio_attacker = e.dio_attacker) := by
  have h := reachable_inv hs
  refine ⟨?_, ?_, ?_⟩
  · intro a k
    obtain ⟨s1, hr, _⟩ := record_inv h a k
    obtain ⟨e1, he1, h1, h2⟩ := record_flags h hr i e he
    exact ⟨s1, e1, hr, he1, h1, h2⟩
  · intro F fm
    obtain ⟨s1, hr, _, _, limit, hget⟩ := check_dio_spec fm h
    refine ⟨s1, _, hr, by rw [hget i, he]; rfl, ?_, ?_⟩
    · intro ht
      simp only
      split
      · rfl
      · exact ht
    · simp only
      split <;> rfl
  · obtain ⟨s1, hr, _, _, hget⟩ := check_dis_spec h
    refine ⟨s1, _, hr, by rw [hget i, he]; rfl, ?_, ?_⟩
    · intro ht
      simp only
      split
      · rfl
      · exact ht
    · simp only
      split <;> rfl

/-- Claim C11 (witness). The statement at the three-record example table and its first
slot. -/
theorem C11_witness :
    Reachable dis_example_state ∧
    dis_example_state.rpl_stats[0]? = some (rpl_stats_entry.mk 10 0 0 4 false false) ∧
    (∀ a k, ∃ s1 e1, rpl_increment_stat_count dis_example_state a k = some s1 ∧
      s1.rpl_stats[0]? = some e1 ∧ e1.dio_attacker = false ∧ e1.dis_attacker = false) ∧
    (∀ (F : Type) (fm : FloatModel F), ∃ s1 e1,
      rpl_check_dio_attackers fm dis_example_state = some s1 ∧
      s1.rpl_stats[0]? = some e1 ∧ (false = true → e1.dio_attacker = true) ∧
      e1.dis_attacker = false) ∧
    (∃ s1 e1, rpl_check_dis_attackers dis_example_state = some s1 ∧
      s1.rpl_stats[0]? = some e1 ∧ (false = true → e1.dis_attacker = true) ∧
      e1.dio_attacker = false) :=
  ⟨reachable_dis_example_state, by decide,
    C11_attacker_flags_persist dis_example_state reachable_dis_example_state 0
      (rpl_stats_entry.mk 10 0 0 4 false false) (by decide)⟩

/-- Claim C14. When `last_entry` is `0`, `rpl_check_dio_attackers` completes and returns
the state it was given, array and `last_entry` alike, under every interpretation of the
float operations (so whatever the divisions by zero, `powf` and `sqrtf` produce). -/
theorem C14_dio_detector_on_empty_table {F : Type} (fm : FloatModel F)
    (tbl : List rpl_stats_entry) :
    rpl_check_dio_attackers fm { rpl_stats := tbl, last_entry := 0 } =
      some { rpl_stats := tbl, last_entry := 0 } := by
  rfl

/-- Claim C16. In every reachable state both detectors complete and leave `last_entry`,
the number of slots and, in every slot, the address and the three counters unchanged;
`rpl_check_dio_attackers` (under every interpretation of the float operations) also leaves
every `dis_attacker` flag unchanged and `rpl_check_dis_attackers` every `dio_attacker`
flag. -/
theorem C16_detectors_keep_counters_and_membership (s : State) (hs : Reachable s) :
    (∀ (F : Type) (fm : FloatModel F), ∃ s1, rpl_check_dio_attackers fm s = some s1 ∧
      s1.last_entry = s.last_entry ∧ s1.rpl_stats.length = s.rpl_stats.length ∧
      ∀ (i : Nat) (e : rpl_stats_entry), s.rpl_stats[i]? = some e →
        ∃ e1, s1.rpl_stats[i]? = some e1 ∧ e1.addr = e.addr ∧ e1.dio_count = e.dio_count ∧
          e1.dao_count = e.dao_count ∧ e1.dis_count = e.dis_count ∧
          e1.dis_attacker = e.dis_attacker) ∧
    (∃ s1, rpl_check_dis_attackers s = some s1 ∧
      s1.last_entry = s.last_entry ∧ s1.rpl_stats.length = s.rpl_stats.length ∧
      ∀ (i : Nat) (e : rpl_stats_entry), s.rpl_stats[i]? = some e →
        ∃ e1, s1.rpl_stats[i]? = some e1 ∧ e1.addr = e.addr ∧ e1.dio_count = e.dio_count ∧
          e1.dao_count = e.dao_count ∧ e1.dis_count = e.dis_count ∧
          e1.dio_attacker = e.dio_attacker) := by
  have h := reachable_inv hs
  refine ⟨?_, ?_⟩
  · intro F fm
    obtain ⟨s1, hr, h1, hlast, limit, hget⟩ := check_dio_spec fm h
    refine ⟨s1, hr, hlast, by rw [h1.len, h.len], ?_⟩
    intro i e he
    refine ⟨_, by rw [hget i, he]; rfl, ?_⟩
    simp only
    split <;> exact ⟨rfl, rfl, rfl, rfl, rfl⟩
  · obtain ⟨s1, hr, h1, hlast, hget⟩ := check_dis_spec h
    refine ⟨s1, hr, hlast, by rw [h1.len, h.len], ?_⟩
    intro i e he
    refine ⟨_, by rw [hget i, he]; rfl, ?_⟩
    simp only
    split <;> exact ⟨rfl, rfl, rfl, rfl, rfl⟩

/-- Claim C16 (witness). The statement at the three-record example table. -/
theorem C16_witness :
    Reachable dis_example_state ∧
    (∀ (F : Type) (fm : FloatModel F), ∃ s1,
      rpl_check_dio_attackers fm dis_example_state = some s1 ∧
      s1.last_entry = dis_example_state.last_entry ∧
      s1.rpl_stats.length = dis_example_state.rpl_stats.length ∧
      ∀ (i : Nat) (e : rpl_stats_entry), dis_example_state.rpl_stats[i]? = some e →
        ∃ e1, s1.rpl_stats[i]? = some e1 ∧ e1.addr = e.addr ∧ e1.dio_count = e.dio_count ∧
          e1.dao_count = e.dao_count ∧ e1.dis_count = e.dis_count ∧
          e1.dis_attacker = e.dis_attacker) ∧
    (∃ s1, rpl_check_dis_attackers dis_example_state = some s1 ∧
      s1.last_entry = dis_example_state.last_entry ∧
      s1.rpl_stats.length = dis_example_state.rpl_stats.length ∧
      ∀ (i : Nat) (e : rpl_stats_entry), dis_example_state.rpl_stats[i]? = some e →
        ∃ e1, s1.rpl_stats[i]? = some e1 ∧ e1.addr = e.addr ∧ e1.dio_count = e.dio_count ∧
          e1.dao_count = e.dao_count ∧ e1.dis_count = e.dis_count ∧
          e1.dio_attacker = e.dio_attacker) :=
  ⟨reachable_dis_example_state,
    C16_detectors_keep_counters_and_membership dis_example_state reachable_dis_example_state⟩

/-- Claim C17. In every reachable state with `last_entry = n < 64`, for every address `a`
not present and every kind `k`: `rpl_increment_stat_count s a k` completes, `last_entry`
becomes `n + 1`, slot `n` holds a record with the address `a`, the counter of kind `k`
equal to `1`, the two other counters `0` and both flags false, and every slot below `n`
is unchanged. Every slot at an index in `[n, 64)` was all-zero before the call. -/
theorem C17_record_new_appends (s : State) (hs : Reachable s)
    (hroom : s.last_entry < TABLE_ENTRIES) (a : uip_ipaddr_t) (ha : a ∉ addrs s)
    (k : rpl_messages_e) :
    (∀ i : Nat, s.last_entry.toNat ≤ i → i < TABLE_ENTRIES →
      s.rpl_stats[i]? = some zero_entry) ∧
    ∃ s1 e1, rpl_increment_stat_count s a k = some s1 ∧
      s1.last_entry = s.last_entry + 1 ∧
      s1.rpl_stats[s.last_entry.toNat]? = some e1 ∧
      e1.addr = a ∧ count_of k e1 = 1 ∧ (∀ k1, k1 ≠ k → count_of k1 e1 = 0) ∧
      e1.dio_attacker = false ∧ e1.dis_attacker = false ∧
      ∀ j : Nat, j < s.last_entry.toNat → s1.rpl_stats[j]? = s.rpl_stats[j]? := by
  have h := reachable_inv hs
  have h64 : ((TABLE_ENTRIES : Nat) : Int) = 64 := rfl
  refine ⟨h.zero, ?_⟩
  rcases record_cases h a k with ⟨ha1, _⟩ | ⟨_, hfull, _⟩ | ⟨_, _, hr⟩
  · exact absurd ha1 ha
  · omega
  · have hl : s.last_entry.toNat < s.rpl_stats.length := by
      have := h.len; have := h.lo; omega
    refine ⟨_, incr_count k { zero_entry with addr := a }, hr, rfl, ?_, ?_, ?_, ?_, ?_, ?_, ?_⟩
    · simp [appended_state, List.getElem?_set, hl]
    · rw [incr_count_addr]
    · rw [count_of_incr_count, if_pos rfl]
      cases k <;> rfl
    · intro k1 hk
      rw [count_of_incr_count, if_neg hk]
      cases k1 <;> rfl
    · rw [incr_count_dio_attacker]; rfl
    · rw [incr_count_dis_attacker]; rfl
    · intro j hj
      have hne : ¬ s.last_entry.toNat = j := by omega
      simp only [appended_state, List.getElem?_set, hne, if_false]

/-- Claim C17 (witness). The statement at the three-record example table, the new address
`13` and the kind DAO. -/
theorem C17_witness :
    Reachable dis_example_state ∧ dis_example_state.last_entry < TABLE_ENTRIES ∧
    (13 : uip_ipaddr_t) ∉ addrs dis_example_state ∧
    (∀ i : Nat, dis_example_state.last_entry.toNat ≤ i → i < TABLE_ENTRIES →
      dis_example_state.rpl_stats[i]? = some zero_entry) ∧
    ∃ s1 e1, rpl_increment_stat_count dis_example_state 13 rpl_messages_e.DAO = some s1 ∧
      s1.last_entry = dis_example_state.last_entry + 1 ∧
      s1.rpl_stats[dis_example_state.last_entry.toNat]? = some e1 ∧
      e1.addr = 13 ∧ count_of rpl_messages_e.DAO e1 = 1 ∧
      (∀ k1, k1 ≠ rpl_messages_e.DAO → count_of k1 e1 = 0) ∧
      e1.dio_attacker = false ∧ e1.dis_attacker = false ∧
      ∀ j : Nat, j < dis_example_state.last_entry.toNat →
        s1.rpl_stats[j]? = dis_example_state.rpl_stats[j]? :=
  ⟨reachable_dis_example_state, by decide, by decide,
    C17_record_new_appends dis_example_state reachable_dis_example_state (by decide) 13
      (by decide) rpl_messages_e.DAO⟩

/-- Claim C19. In every reachable state, for every populated index `i`, with `e` the
record stored there, and every kind `k`: `search_ip` of the address of `e` returns `i`,
and the query by that address and the query by the index `i` return the same value, the
counter of kind `k` of `e`. -/
theorem C19_queries_agree (s : State) (hs : Reachable s) (i : Nat)
    (hi : i < s.last_entry.toNat) (e : rpl_stats_entry) (he : s.rpl_stats[i]? = some e)
    (k : rpl_messages_e) :
    search_ip s e.addr = some (i : Int) ∧
    rpl_read_stat_count_ip s e.addr k = rpl_read_stat_count_index s i k ∧
    rpl_read_stat_count_index s i k = some (count_of k e) := by
  have h := reachable_inv hs
  obtain ⟨hm, hidx⟩ := indexOf_addr_of_getElem? h hi he
  have hidxr := read_index_lt s i k h.lo h.hi hi e he (h.entry_u32_of_getElem? he)
  refine ⟨?_, ?_, hidxr⟩
  · rw [search_ip_eq s e.addr h.len h.hi, if_pos hm, hidx]
  · rw [read_ip_of_getElem? h hi he k, hidxr]

/-- Claim C19 (witness). The statement at the three-record example table, index `2`
(address `12`, DIS count `2`) and the kind DIS. -/
theorem C19_witness :
    Reachable dis_example_state ∧ 2 < dis_example_state.last_entry.toNat ∧
    dis_example_state.rpl_stats[2]? = some (rpl_stats_entry.mk 12 0 0 2 false false) ∧
    search_ip dis_example_state 12 = some 2 ∧
    rpl_read_stat_count_ip dis_example_state 12 rpl_messages_e.DIS =
      rpl_read_stat_count_index dis_example_state 2 rpl_messages_e.DIS ∧
    rpl_read_stat_count_index dis_example_state 2 rpl_messages_e.DIS = some 2 :=
  ⟨reachable_dis_example_state, by decide, by decide,
    C19_queries_agree dis_example_state reachable_dis_example_state 2 (by decide)
      (rpl_stats_entry.mk 12 0 0 2 false false) (by decide) rpl_messages_e.DIS⟩

/-! ### The reporter: claims C12 and C13 -/

theorem pad_left_length (w : Nat) (t : List Char) :
    (pad_left w t).length = w - t.length + t.length := by
  simp [pad_left]

theorem pad_right_length (w : Nat) (t : List Char) :
    (pad_right w t).length = t.length + (w - t.length) := by
  simp [pad_right]

theorem nat_digits_length (fuel : Nat) :
    ∀ (n : Nat) (acc : List Char), (nat_digits fuel n acc).length ≤ fuel + acc.length := by
  induction fuel with
  | zero => intro n acc; simp [nat_digits]
  | succ f ih =>
    intro n acc
    rw [nat_digits]
    split
    · simp only [List.length_cons]; omega
    · have := ih (n / 10) (Char.ofNat (48 + n % 10) :: acc)
      simp only [List.length_cons] at this
      omega

theorem dec_text_length (x : Int) : (dec_text x).length ≤ 11 := by
  unfold dec_text
  split
  · have := nat_digits_length 10 ‹Nat› []
    simp only [List.length_nil] at this
    omega
  · have := nat_digits_length 10 (‹Nat› + 1) []
    simp only [List.length_nil, List.length_cons] at this ⊢
    omega

/-- A line of the render has at most 101 characters. -/
theorem row_text_length (ip_text : uip_ipaddr_t → List Char) (e : rpl_stats_entry) :
    (row_text ip_text e).length ≤ 101 := by
  have h1 := dec_text_length (uint32_to_int e.dio_count)
  have h2 := dec_text_length (uint32_to_int e.dao_count)
  have h3 := dec_text_length (uint32_to_int e.dis_count)
  have h4 := dec_text_length (bool_to_int e.dio_attacker)
  have h5 := dec_text_length (bool_to_int e.dis_attacker)
  have h6 : ((ip_text e.addr).take 45).length ≤ 45 := by
    rw [List.length_take]; exact Nat.min_le_left _ _
  simp only [row_text, List.length_append, pad_left_length, pad_right_length,
    List.length_singleton]
  omega

theorem header_text_length : header_text.length = 57 := by decide

/-- The loop of `rpl_stats_snprint` completes on in-bounds indices and adds the length of
every line to the running value of `written`, whatever `len` is. -/
theorem snprint_loop_ret (ip_text : uip_ipaddr_t → List Char) (tbl : List rpl_stats_entry)
    (len : Nat) :
    ∀ (remaining i : Nat) (r : snprint_result), i + remaining ≤ tbl.length →
      i + remaining ≤ TABLE_ENTRIES → r.ret + 101 * remaining < 2 ^ 64 →
      ∃ r1, snprint_loop ip_text tbl len remaining i r = some r1 ∧
        r1.ret = r.ret +
          (((tbl.drop i).take remaining).map (row_text ip_text)).flatten.length := by
  intro remaining
  induction remaining with
  | zero =>
    intro i r _ _ _
    exact ⟨r, rfl, by simp⟩
  | succ n ih =>
    intro i r h1 h2 h3
    have hi : i < tbl.length := by omega
    have hd : tbl.drop i = tbl[i] :: tbl.drop (i + 1) := List.drop_eq_getElem_cons hi
    have hrow := row_text_length ip_text tbl[i]
    rw [snprint_loop, read_entry_nat tbl i (by omega), List.getElem?_eq_getElem hi]
    simp only
    have hret : (snprint_step r (size_t_sub len r.ret) (row_text ip_text tbl[i])).ret =
        r.ret + (row_text ip_text tbl[i]).length := by
      simp only [snprint_step, size_t_add, to_size_t]
      omega
    obtain ⟨r1, hr1, hr1ret⟩ := ih (i + 1) _ (by omega) (by omega) (by rw [hret]; omega)
    refine ⟨r1, hr1, ?_⟩
    rw [hr1ret, hret, hd]
    simp only [List.take_succ_cons, List.map_cons, List.flatten_cons, List.length_append]
    omega

/-- Claim C12. For every table (an array of `TABLE_ENTRIES` slots with
`last_entry ≤ TABLE_ENTRIES`), every rendering of addresses and every buffer capacity
`len`, `rpl_stats_snprint(buf, len)` completes and returns the length of the complete
render, the header line and one line per record in `[0, last_entry)`; the returned value
is therefore the same for every two capacities. -/
theorem C12_snprint_returns_full_length (ip_text : uip_ipaddr_t → List Char) (s : State)
    (hlen : s.rpl_stats.length = TABLE_ENTRIES) (hhi : s.last_entry ≤ TABLE_ENTRIES)
    (len : Nat) :
    (∃ r, rpl_stats_snprint ip_text s len = some r ∧
      r.ret = (full_render ip_text s).length) ∧
    ∀ len1, (rpl_stats_snprint ip_text s len1).map (fun r => r.ret) =
      (rpl_stats_snprint ip_text s len).map (fun r => r.ret) := by
  have h64 : ((TABLE_ENTRIES : Nat) : Int) = 64 := rfl
  have key : ∀ l, ∃ r, rpl_stats_snprint ip_text s l = some r ∧
      r.ret = (full_render ip_text s).length := by
    intro l
    have hr0 : (snprint_step { ret := 0, calls := [], stores := [] } l header_text).ret = 57 := by
      simp only [snprint_step, size_t_add, to_size_t, header_text_length]
      decide
    obtain ⟨r, hr, hret⟩ := snprint_loop_ret ip_text s.rpl_stats l s.last_entry.toNat 0
      (snprint_step { ret := 0, calls := [], stores := [] } l header_text)
      (by omega) (by omega) (by rw [hr0]; omega)
    refine ⟨r, hr, ?_⟩
    rw [hret, hr0]
    simp only [full_render, List.length_append, header_text_length, List.drop_zero]
  refine ⟨key len, ?_⟩
  intro len1
  obtain ⟨r, hr, hret⟩ := key len
  obtain ⟨r1, hr1, hret1⟩ := key len1
  rw [hr, hr1]
  simp only [Option.map_some', hret, hret1]

/-- Claim C12 (witness). The statement at the three-record example table with the
capacity `10`, smaller than the header. -/
theorem C12_witness :
    dis_example_state.rpl_stats.length = TABLE_ENTRIES ∧
    dis_example_state.last_entry ≤ TABLE_ENTRIES ∧
    (∃ r, rpl_stats_snprint example_ip_text dis_example_state 10 = some r ∧
      r.ret = (full_render example_ip_text dis_example_state).length) ∧
    ∀ len1, (rpl_stats_snprint example_ip_text dis_example_state len1).map (fun r => r.ret) =
      (rpl_stats_snprint example_ip_text dis_example_state 10).map (fun r => r.ret) :=
  ⟨by decide, by decide,
    C12_snprint_returns_full_length example_ip_text dis_example_state (by decide) (by decide) 10⟩

/-- A `snprintf` call with a non-zero size stores its terminating zero byte right after
the characters it keeps. -/
theorem snprintf_stores_last (off size : Nat) (text : List Char) (h : size ≠ 0) :
    (off + (text.take (size - 1)).length, Char.ofNat 0) ∈ snprintf_stores off size text := by
  simp [snprintf_stores, h]

/-- Claim C13 (failing input). In the reachable table with one populated record and the capacity `len = 10`,
the header call returns 57, so the second call is `snprintf(buf + 57, len - 57, ...)`
with `len - 57` wrapped to `18446744073709551569`: offset plus size is far above `len`,
and the call stores bytes at offsets of `buf` at and above `len`, whatever the rendering
of the address. -/
theorem C13_snprint_writes_past_capacity (ip_text : uip_ipaddr_t → List Char) :
    Reachable (single_state 1) ∧
    ∃ r, rpl_stats_snprint ip_text (single_state 1) 10 = some r ∧
      r.ret = 57 + (row_text ip_text (rpl_stats_entry.mk 1 1 0 0 false false)).length ∧
      r.calls = [(0, 10), (57, 18446744073709551569)] ∧
      ¬ (57 + 18446744073709551569 ≤ 10) ∧
      ∃ p ∈ r.stores, 10 ≤ p.1 := by
  refine ⟨reachable_single_state 1 (by norm_num) (by norm_num), _, rfl, ?_, rfl, by decide, ?_⟩
  · have h101 := row_text_length ip_text (rpl_stats_entry.mk 1 1 0 0 false false)
    show size_t_add 57 (to_size_t
      ((row_text ip_text (rpl_stats_entry.mk 1 1 0 0 false false)).length : Int)) = _
    simp only [size_t_add, to_size_t]
    omega
  · refine ⟨_, List.mem_append_right _
      (snprintf_stores_last 57 18446744073709551569 _ (by decide)), ?_⟩
    show 10 ≤ 57 + _
    omega

/-! ### Lock discipline: claim C18 -/

theorem guarded_from_append_access (t rest : List Event) (h : t.all is_access = true) :
    guarded_from true (t ++ rest) = guarded_from true rest := by
  induction t with
  | nil => rfl
  | cons e t ih =>
    simp only [List.all_cons, Bool.and_eq_true] at h
    cases e with
    | lock => exact absurd h.1 (by decide)
    | unlock => exact absurd h.1 (by decide)
    | read_last_entry =>
      show (true && guarded_from true (t ++ rest)) = _
      rw [Bool.true_and]; exact ih h.2
    | write_last_entry =>
      show (true && guarded_from true (t ++ rest)) = _
      rw [Bool.true_and]; exact ih h.2
    | read_stats i =>
      show (true && guarded_from true (t ++ rest)) = _
      rw [Bool.true_and]; exact ih h.2
    | write_stats i =>
      show (true && guarded_from true (t ++ rest)) = _
      rw [Bool.true_and]; exact ih h.2

/-- A call that takes the lock, then only reads and writes, then releases the lock keeps
the lock discipline. -/
theorem guarded_lock_access_unlock (t : List Event) (h : t.all is_access = true) :
    guarded ([Event.lock] ++ t ++ [Event.unlock]) = true := by
  show guarded_from false (Event.lock :: (t ++ [Event.unlock])) = true
  rw [guarded_from, guarded_from_append_access t _ h]
  rfl

theorem trace_search_ip_loop_access (tbl : List rpl_stats_entry) (ip : uip_ipaddr_t) :
    ∀ (remaining i : Nat), (trace_search_ip_loop tbl ip remaining i).all is_access = true := by
  intro remaining
  induction remaining with
  | zero => intro i; rfl
  | succ n ih =>
    intro i
    rw [trace_search_ip_loop]
    simp only [List.all_cons, is_access, Bool.true_and]
    cases read_entry tbl i with
    | none => rfl
    | some e =>
      simp only
      split
      · rfl
      · exact ih (i + 1)

theorem trace_snprint_loop_access (tbl : List rpl_stats_entry) :
    ∀ (remaining i : Nat), (trace_snprint_loop tbl remaining i).all is_access = true := by
  intro remaining
  induction remaining with
  | zero => intro i; rfl
  | succ n ih =>
    intro i
    rw [trace_snprint_loop]
    simp only [List.all_cons, is_access, Bool.true_and]
    cases read_entry tbl i with
    | none => rfl
    | some e => exact ih (i + 1)

/-- The operations that bracket their body with the lock keep the lock discipline in
every state: ingestion, the three query functions, reset and the reporter. -/
theorem locked_operations_guarded (s : State) (a : uip_ipaddr_t) (idx : Nat) :
    guarded (trace_increment_stat_count s a) = true ∧
    guarded (trace_read_stat_count_ip s a) = true ∧
    guarded (trace_read_stat_count_index s idx) = true ∧
    guarded trace_read_neighbor_num = true ∧
    guarded trace_reset_stats = true ∧
    guarded (trace_stats_snprint s) = true := by
  refine ⟨?_, ?_, ?_, rfl, by decide, ?_⟩
  · unfold trace_increment_stat_count
    rw [List.append_assoc [Event.lock]]
    apply guarded_lock_access_unlock
    rw [List.all_append, trace_search_ip, trace_search_ip_loop_access, Bool.true_and]
    cases search_ip s a with
    | none => rfl
    | some pos =>
      simp only
      split
      · split <;> rfl
      · rfl
  · unfold trace_read_stat_count_ip
    rw [List.append_assoc [Event.lock]]
    apply guarded_lock_access_unlock
    rw [List.all_append, trace_search_ip, trace_search_ip_loop_access, Bool.true_and]
    cases search_ip s a with
    | none => rfl
    | some pos =>
      simp only
      split <;> rfl
  · unfold trace_read_stat_count_index
    show guarded ([Event.lock] ++ (Event.read_last_entry :: _) ++ [Event.unlock]) = true
    apply guarded_lock_access_unlock
    simp only [List.all_cons, is_access, Bool.true_and]
    split <;> rfl
  · unfold trace_stats_snprint
    apply guarded_lock_access_unlock
    exact trace_snprint_loop_access _ _ _

/-- Claim C18 (failing input). The operations that bracket their body with the lock keep
the lock discipline in every state, but the detectors do not: on the reachable
three-record table with the DIS counts 4, 1 and 2, `rpl_check_dis_attackers` stores
`rpl_stats[0].dis_attacker` after the `unlock` of the preceding read and before the next
`lock`, so its trace breaks the discipline; and under every interpretation of the float
operations `rpl_check_dio_attackers` on that table either flags nothing or breaks the
discipline in the same way. -/
theorem C18_detector_writes_outside_lock :
    (∀ (s : State) (a : uip_ipaddr_t) (idx : Nat),
      guarded (trace_increment_stat_count s a) = true ∧
      guarded (trace_read_stat_count_ip s a) = true ∧
      guarded (trace_read_stat_count_index s idx) = true ∧
      guarded trace_read_neighbor_num = true ∧
      guarded trace_reset_stats = true ∧
      guarded (trace_stats_snprint s) = true) ∧
    Reachable dis_example_state ∧
    (trace_check_dis_attackers dis_example_state).take 8 =
      [Event.lock, Event.read_last_entry, Event.unlock,
       Event.lock, Event.read_last_entry, Event.read_stats 0, Event.unlock,
       Event.write_stats 0] ∧
    guarded (trace_check_dis_attackers dis_example_state) = false ∧
    ∀ (F : Type) (fm : FloatModel F),
      guarded (trace_check_dio_attackers fm dis_example_state) = false ∨
      rpl_check_dio_attackers fm dis_example_state = some dis_example_state := by
  refine ⟨locked_operations_guarded, reachable_dis_example_state, by decide, by decide, ?_⟩
  intro F fm
  have h0 : rpl_read_stat_count_index dis_example_state (to_size_t ((0 : Nat) : Int))
      rpl_messages_e.DIO = some 0 := by decide
  have h1 : rpl_read_stat_count_index dis_example_state (to_size_t ((0 + 1 : Nat) : Int))
      rpl_messages_e.DIO = some 0 := by decide
  have h2 : rpl_read_stat_count_index dis_example_state (to_size_t ((0 + 1 + 1 : Nat) : Int))
      rpl_messages_e.DIO = some 0 := by decide
  obtain ⟨sum, temp, hrun, htrace⟩ : ∃ sum temp : F,
      rpl_check_dio_attackers fm dis_example_state =
        dio_flag_loop fm (fm.div sum (fm.of_int 3))
          (fm.quartic (fm.powf (fm.of_int 3) (fm.of_int 4))
            (fm.powf (fm.of_int 3) (fm.of_int 3)) (fm.powf (fm.of_int 3) (fm.of_int 2)) 3)
          (fm.sqrtf (fm.div temp (fm.of_int 3))) 3 0 dis_example_state ∧
      trace_check_dio_attackers fm dis_example_state =
        trace_read_neighbor_num ++ trace_dio_read_loop dis_example_state 3 0 ++
          trace_dio_read_loop dis_example_state 3 0 ++
          trace_dio_flag_loop fm (dio_threshold fm 3 sum temp) 3 0 dis_example_state :=
    ⟨_, _, rfl, rfl⟩
  rw [hrun, htrace]
  by_cases hc : fm.gt (fm.of_uint32 0) (dio_threshold fm 3 sum temp) = true
  · left
    rw [trace_dio_flag_loop, h0]
    simp only
    rw [if_pos hc]
    generalize (match update_entry dis_example_state.rpl_stats ((0 : Nat) : Int)
      (fun e => { e with dio_attacker := true }) with
      | none => []
      | some tbl => trace_dio_flag_loop fm (dio_threshold fm 3 sum temp) 2 (0 + 1)
          { dis_example_state with rpl_stats := tbl }) = rest
    rfl
  · right
    have hc1 : ¬ fm.gt (fm.of_uint32 0) (fm.add (fm.div sum (fm.of_int 3))
        (fm.mul (fm.quartic (fm.powf (fm.of_int 3) (fm.of_int 4))
          (fm.powf (fm.of_int 3) (fm.of_int 3)) (fm.powf (fm.of_int 3) (fm.of_int 2)) 3)
          (fm.sqrtf (fm.div temp (fm.of_int 3))))) = true := hc
    rw [dio_flag_loop, h0]
    simp only
    rw [if_neg hc1, dio_flag_loop, h1]
    simp only
    rw [if_neg hc1, dio_flag_loop, h2]
    simp only
    rw [if_neg hc1, dio_flag_loop]

/-! ### The client's table: claim C20 -/

/-- Claim C20 (failing input). In `client.c` sixteen DIO callbacks from the addresses `1`
to `16` fill the table (`last_entry = 16 = TABLE_ENTRIES`); the next callback from the new
address `17`, of whichever kind, finds no record and writes `rpl_stats[16]`, an index that
is not below `16`, so the call is an out-of-bounds access and the run of seventeen
callbacks does not complete. -/
theorem C20_client_table_overflows :
    Client.run Client.init_state (Client.distinct_senders 16) = some Client.full_state ∧
    Client.full_state.last_entry = 16 ∧
    Client.search_ip Client.full_state 17 = some (-1) ∧
    Client.write_index Client.full_state 17 = some 16 ∧
    ¬ ((16 : Int) < Client.TABLE_ENTRIES) ∧
    Client.dio_callback Client.full_state 17 = none ∧
    Client.dao_callback Client.full_state 17 = none ∧
    Client.dis_callback Client.full_state 17 = none ∧
    Client.run Client.init_state (Client.distinct_senders 17) = none := by
  refine ⟨by decide, by decide, by decide, by decide, by decide, by decide, by decide,
    by decide, by decide⟩

end RplStats
